import Mathlib

/-!
Verification development for the GEIA Madrid dashboard data pipeline
(`geia_streamlit_app.py`).

The pipeline works on pandas DataFrames.  We shallowly embed the fragment of
pandas that the pipeline uses:

* a cell (`Value`) is either missing (pandas `NaN`/`NaT`), a number
  (int64/float64 cells, idealized as exact rationals), a text cell, or a
  timestamp (payload idealized as an integer code);
* a column (`Col`) carries its name, its pandas dtype (`object`, numeric or
  datetime64) and its list of cell values;
* a DataFrame (`Table`) is its ordered list of columns; in a well-formed
  frame all columns have the same length (pandas enforces this).

Floating-point values are idealized as rationals (`float(str(x)) == x` holds
exactly for Python floats, so `astype(str)` round-trips); float infinities,
underscore digit separators and `"inf"` literals are outside the model.
-/

/-- A single cell of a DataFrame. -/
inductive Value where
  | missing
  | num (q : ℚ)
  | str (s : String)
  | date (d : ℤ)
deriving DecidableEq, Repr

/-- A pandas column dtype: `object` (free-form / text), numeric
(int64/float64), or datetime64. -/
inductive Dtype where
  | obj
  | numD
  | dateD
deriving DecidableEq, Repr

/-- A named, typed column of cells. -/
structure Col where
  name : String
  dtype : Dtype
  vals : List Value
deriving DecidableEq, Repr

/-- A DataFrame: an ordered list of named columns. -/
structure Table where
  cols : List Col
deriving DecidableEq, Repr

def defaultCol : Col := ⟨"", Dtype.obj, []⟩

/-- Number of rows: the length of the first column (0 for a column-less
frame).  In a well-formed frame every column has this length. -/
def nrows (t : Table) : Nat :=
  match t.cols with
  | [] => 0
  | c :: _ => c.vals.length

/-- Well-formedness: all columns have the same length (true of every real
DataFrame). -/
def WFb (t : Table) : Bool :=
  t.cols.all (fun c => c.vals.length = nrows t)

/-- `name in df.columns`. -/
def hasCol (t : Table) (n : String) : Bool :=
  t.cols.any (fun c => c.name = n)

/-- `df[n]` — the first column named `n`, if any. -/
def findCol (t : Table) (n : String) : Option Col :=
  t.cols.find? (fun c => c.name = n)

/-- The values of column `n`, if present. -/
def getColVals (t : Table) (n : String) : Option (List Value) :=
  (findCol t n).map Col.vals

/-- Cell at column position `k`, row `j` (missing when out of range). -/
def cellAt (t : Table) (k j : Nat) : Value :=
  (t.cols.getD k defaultCol).vals.getD j Value.missing

/-- `pd.DataFrame()`. -/
def emptyTable : Table := ⟨[]⟩

/-- `df.empty`: some axis has length 0. -/
def Table.isEmpty (t : Table) : Bool :=
  t.cols.isEmpty || nrows t == 0

/-! ### String helpers -/

def isPrefixL : List Char → List Char → Bool
  | [], _ => true
  | _ :: _, [] => false
  | a :: as, b :: bs => a == b && isPrefixL as bs

def isInfixL (n : List Char) : List Char → Bool
  | [] => n.isEmpty
  | b :: bs => isPrefixL n (b :: bs) || isInfixL n bs

/-- Python's `needle in hay` on strings. -/
def strContainsSub (hay needle : String) : Bool :=
  isInfixL needle.toList hay.toList

/-- The name heuristic of `normalize_types`:
`"date" in col or "fecha" in col`. -/
def dateNamed (s : String) : Bool :=
  strContainsSub s "date" || strContainsSub s "fecha"

/-! ### Number parsing (`float(s)` / `pd.to_numeric` on a string cell) -/

/-- Split the leading run of decimal digits from a character list. -/
def splitDigits : List Char → List Char × List Char
  | [] => ([], [])
  | c :: cs =>
    if c.isDigit then
      let p := splitDigits cs
      (c :: p.1, p.2)
    else ([], c :: cs)

def digitsValN (l : List Char) : ℕ :=
  l.foldl (fun a c => a * 10 + (c.toNat - 48)) 0

def digitsValQ (l : List Char) : ℚ :=
  (digitsValN l : ℚ)

/-- Strip an optional leading sign; returns (isNegative, rest). -/
def parseSign : List Char → Bool × List Char
  | '+' :: r => (false, r)
  | '-' :: r => (true, r)
  | l => (false, l)

/-- `digits [. digits]` with at least one digit; the syntax accepted by
Python's `float` for an unsigned mantissa. -/
def parseUnsigned : List Char → Option ℚ :=
  fun l =>
    let p := splitDigits l
    match p.2 with
    | [] => if p.1.isEmpty then none else some (digitsValQ p.1)
    | '.' :: r2 =>
      let q := splitDigits r2
      if q.2.isEmpty then
        if p.1.isEmpty && q.1.isEmpty then none
        else some (digitsValQ p.1 + digitsValQ q.1 / (10 : ℚ) ^ q.1.length)
      else none
    | _ => none

/-- Split a char list at the first `e`/`E` (exponent marker). -/
def splitAtExp : List Char → List Char × Option (List Char)
  | [] => ([], none)
  | c :: cs =>
    if c == 'e' || c == 'E' then ([], some cs)
    else
      let p := splitAtExp cs
      (c :: p.1, p.2)

/-- A (signed) decimal integer, for exponents. -/
def parseIntE (l : List Char) : Option ℤ :=
  let s := parseSign l
  let p := splitDigits s.2
  if p.1.isEmpty || !p.2.isEmpty then none
  else some (if s.1 then -(digitsValN p.1 : ℤ) else (digitsValN p.1 : ℤ))

/-- `float(s)` on a plain decimal literal (sign, mantissa, optional
exponent); `none` when `float` would raise `ValueError`.  NaN/inf literals
are handled separately. -/
def parseNumQ (s : String) : Option ℚ :=
  let sg := parseSign s.toList
  let sp := splitAtExp sg.2
  match parseUnsigned sp.1 with
  | none => none
  | some m =>
    match sp.2 with
    | none => some (if sg.1 then -m else m)
    | some ec =>
      match parseIntE ec with
      | none => none
      | some e => some ((if sg.1 then -m else m) * (10 : ℚ) ^ e)

/-- ASCII lower-casing of one character (what `float`'s case-insensitive
literal matching needs). -/
def lowerChar (c : Char) : Char :=
  if 'A' ≤ c && c ≤ 'Z' then Char.ofNat (c.toNat + 32) else c

/-- Literals that `float` parses as NaN (so `to_numeric` succeeds but the
cell becomes missing); matching is case-insensitive. -/
def isNanStr (s : String) : Bool :=
  let m := s.toList.map lowerChar
  m == "nan".toList || m == "+nan".toList || m == "-nan".toList

/-! ### `pd.to_numeric` / `pd.to_datetime` cell semantics -/

/-- Can `to_numeric` convert this cell (i.e. would `errors="ignore"` keep the
conversion)?  Missing and numeric cells always convert; a text cell converts
iff `float` accepts it; a timestamp object makes the conversion fail. -/
def numericParseable : Value → Bool
  | Value.missing => true
  | Value.num _ => true
  | Value.str s => (parseNumQ s).isSome || isNanStr s
  | Value.date _ => false

/-- `pd.to_numeric(·, errors="coerce")` on one cell: numbers pass through,
parseable text becomes a number, anything else becomes missing; a cell of a
datetime64 column is reinterpreted as its integer code. -/
def coerceCell : Value → Value
  | Value.missing => Value.missing
  | Value.num q => Value.num q
  | Value.str s =>
    match parseNumQ s with
    | some q => Value.num q
    | none => Value.missing
  | Value.date d => Value.num (d : ℚ)

/-- A minimal `pd.to_datetime` string parser: ISO `YYYY-MM-DD`; the payload
encodes the date as `y*10000 + m*100 + d`.  (pandas accepts more formats;
no claim depends on which strings parse, only on parse-or-missing.) -/
def parseDateStr (s : String) : Option ℤ :=
  match s.toList with
  | [y1, y2, y3, y4, '-', m1, m2, '-', d1, d2] =>
    if (y1.isDigit && y2.isDigit && y3.isDigit && y4.isDigit
        && m1.isDigit && m2.isDigit && d1.isDigit && d2.isDigit) then
      let m := digitsValN [m1, m2]
      let d := digitsValN [d1, d2]
      if 1 ≤ m && m ≤ 12 && 1 ≤ d && d ≤ 31 then
        some ((digitsValN [y1, y2, y3, y4] : ℤ) * 10000 + (m : ℤ) * 100 + (d : ℤ))
      else none
    else none
  | _ => none

/-- `pd.to_datetime(·, errors="coerce")` on one cell: timestamps pass
through, parseable text becomes a timestamp, numbers are interpreted as epoch
offsets, anything unparseable becomes missing (NaT). -/
def toDatetimeCell : Value → Value
  | Value.missing => Value.missing
  | Value.date d => Value.date d
  | Value.num q => Value.date ⌊q⌋
  | Value.str s =>
    match parseDateStr s with
    | some d => Value.date d
    | none => Value.missing

/-! ### `standardize_prices` -/

/-- The default `price_columns` argument (callers never pass another). -/
def priceCandidates : List String :=
  ["price", "price_per_night", "precio", "price_m2"]

/-- Whitespace as `str.strip()` removes it. -/
def isWsChar (c : Char) : Bool :=
  c == ' ' || c == '\t' || c == '\n' || c == '\r'

/-- `str.strip()`: drop leading and trailing whitespace. -/
def trimL (l : List Char) : List Char :=
  ((l.dropWhile isWsChar).reverse.dropWhile isWsChar).reverse

/-- `.replace("$","").replace("€","").replace(",","").strip()` after
`astype(str)`, on the characters of a text cell.  The three patterns are
single characters replaced by the empty string, so the replacements remove
every occurrence of those characters. -/
def stripPriceL (l : List Char) : List Char :=
  trimL (l.filter (fun c => !(c == '$' || c == '€' || c == ',')))

def stripPriceStr (s : String) : String :=
  ⟨stripPriceL s.toList⟩

/-- The per-cell effect of the `standardize_prices` column transformation:
`astype(str)` then symbol stripping then `to_numeric(errors="coerce")`.
`str(float)` round-trips exactly through `float()`, `str(nan) = "nan"`
re-coerces to NaN, and `str(Timestamp)` never parses as a number. -/
def cleanPriceCell : Value → Value
  | Value.missing => Value.missing
  | Value.num q => Value.num q
  | Value.str s => coerceCell (Value.str (stripPriceStr s))
  | Value.date _ => Value.missing

/-- The whole-column assignment
`cleaned[column] = to_numeric(cleaned[column].astype(str)...)`:
the column becomes numeric. -/
def priceColUpdate (c : Col) : Col :=
  ⟨c.name, Dtype.numD, c.vals.map cleanPriceCell⟩

/-- One iteration of the `for column in price_columns` loop: if the column is
present, replace it (pandas `df[col] = series` assigns to every column with
that label). -/
def setPriceCol (t : Table) (n : String) : Table :=
  if hasCol t n then
    ⟨t.cols.map (fun c => if c.name = n then priceColUpdate c else c)⟩
  else t

/-- `standardize_prices(df)` (source lines 7–20). -/
def standardize_prices (t : Table) : Table :=
  priceCandidates.foldl setPriceCol t

/-! ### `normalize_types` -/

/-- The body of the `for col in normalized.columns` loop of
`normalize_types`, for one column: date-named columns are converted with
`to_datetime(errors="coerce")`; then, if the column's dtype is `object`,
`to_numeric(errors="ignore")` converts it — atomically: the whole column is
converted when every cell is parseable and left entirely unchanged
otherwise. -/
def normalizeColStep (c : Col) : Col :=
  let c1 := if dateNamed c.name then
      ⟨c.name, Dtype.dateD, c.vals.map toDatetimeCell⟩
    else c
  if c1.dtype = Dtype.obj then
    if c1.vals.all numericParseable then
      ⟨c1.name, Dtype.numD, c1.vals.map coerceCell⟩
    else c1
  else c1

/-- `normalize_types(df)` (source lines 23–30): each column is processed
independently by the loop body. -/
def normalize_types (t : Table) : Table :=
  ⟨t.cols.map normalizeColStep⟩

/-! ### `add_basic_columns` -/

/-- `365 - x` on a numeric series cell (missing propagates). -/
def sub365Cell : Value → Value
  | Value.num q => Value.num (365 - q)
  | _ => Value.missing

/-- `df[n] = series` when the column may or may not exist: replace every
column labelled `n`, else append at the end (pandas column-assignment
semantics). -/
def upsertCol (t : Table) (c : Col) : Table :=
  if hasCol t c.name then
    ⟨t.cols.map (fun c0 => if c0.name = c.name then c else c0)⟩
  else ⟨t.cols ++ [c]⟩

/-- `if "price" in enriched.columns: enriched["precio_noche"] = to_numeric(
enriched["price"], errors="coerce")` (source lines 35–36). -/
def addPrecio (t : Table) : Table :=
  match findCol t "price" with
  | some c => upsertCol t ⟨"precio_noche", Dtype.numD, c.vals.map coerceCell⟩
  | none => t

/-- `if "availability_365" in enriched.columns: enriched["ocupacion_estimada"]
= 365 - to_numeric(enriched["availability_365"], errors="coerce")` (source
lines 37–40). -/
def addOcup (t : Table) : Table :=
  match findCol t "availability_365" with
  | some c =>
    upsertCol t
      ⟨"ocupacion_estimada", Dtype.numD,
        c.vals.map (fun v => sub365Cell (coerceCell v))⟩
  | none => t

/-- `add_basic_columns(df)` (source lines 33–41). -/
def add_basic_columns (t : Table) : Table :=
  addOcup (addPrecio t)

/-! ### `drop_duplicates` and `clean_dataset` -/

/-- Row `i` of the frame, as the list of its cells in column order. -/
def rowAt (t : Table) (i : Nat) : List Value :=
  t.cols.map (fun c => c.vals.getD i Value.missing)

/-- The row indices kept by `drop_duplicates()` (keep="first"): a row stays
iff no earlier row is identical. -/
def keptIdxs (t : Table) : List Nat :=
  (List.range (nrows t)).filter
    (fun i => (List.range i).all (fun j => !(rowAt t j == rowAt t i)))

/-- `df.drop_duplicates()`: restrict every column to the kept rows. -/
def drop_duplicates (t : Table) : Table :=
  ⟨t.cols.map (fun c => ⟨c.name, c.dtype, (keptIdxs t).map (fun i => c.vals.getD i Value.missing)⟩)⟩

/-- `clean_dataset(df)` (source lines 44–49). -/
def clean_dataset (t : Table) : Table :=
  drop_duplicates (add_basic_columns (normalize_types (standardize_prices t)))

/-! ### Value ordering (pandas sort order, idealized total) -/

/-- Rank of a value's kind; used to totalize comparisons across kinds
(a real pandas sort on mixed kinds can raise — no modeled call path sorts
mixed kinds, see the aggregator guards). -/
def vleB : Value → Value → Bool
  | Value.missing, _ => true
  | _, Value.missing => false
  | Value.num x, Value.num y => decide (x ≤ y)
  | Value.num _, _ => true
  | _, Value.num _ => false
  | Value.str x, Value.str y => decide (x ≤ y)
  | Value.str _, _ => true
  | _, Value.str _ => false
  | Value.date x, Value.date y => decide (x ≤ y)

def Vle (a b : Value) : Prop := vleB a b = true

def Vge (a b : Value) : Prop := Vle b a

instance (a b : Value) : Decidable (Vle a b) := by
  unfold Vle
  infer_instance

instance (a b : Value) : Decidable (Vge a b) := by
  unfold Vge Vle
  infer_instance

instance : IsTotal Value Vle := by
  constructor
  intro a b
  cases a <;> cases b <;> simp [Vle, vleB, le_total]

instance : IsTrans Value Vle := by
  constructor
  intro a b c hab hbc
  cases a <;> cases b <;> cases c <;> simp_all [Vle, vleB] <;> exact le_trans hab hbc

/-! ### Group-by with mean aggregation -/

/-- Is the cell numeric-or-missing (so that `mean` can aggregate it)? -/
def NumOrMissing : Value → Bool
  | Value.missing => true
  | Value.num _ => true
  | _ => false

/-- `mean` aggregates a column only when its non-missing content is numeric;
otherwise pandas raises (`TypeError`/`DataError`). -/
def aggOkVals (ms : List Value) : Bool := ms.all NumOrMissing

def toQOpt : Value → Option ℚ
  | Value.num q => some q
  | _ => none

/-- The mean of a group's metric cells: NaN cells are skipped; an all-missing
group has a missing mean. -/
def meanOfGroup (ms : List Value) : Value :=
  let qs := ms.filterMap toQOpt
  if qs.isEmpty then Value.missing else Value.num (qs.sum / (qs.length : ℚ))

/-- The group keys of `df.groupby(k)`: the distinct non-missing key values,
in ascending order (`groupby` drops NaN keys and sorts the groups). -/
def groupKeys (kvs : List Value) : List Value :=
  List.insertionSort Vle ((kvs.filter (fun v => !(v == Value.missing))).dedup)

/-- The metric cells of the group of key `k` (rows are the positional pairs
of the key column and the metric column). -/
def groupRows (kvs mvs : List Value) (k : Value) : List Value :=
  ((kvs.zip mvs).filter (fun p => p.1 == k)).map Prod.snd

/-- `df.groupby(kc.name).agg(outName=(mc.name, "mean")).reset_index()`:
one row per distinct non-missing key, key column first. -/
def groupMeanTable (kc mc : Col) (outName : String) : Table :=
  ⟨[⟨kc.name, kc.dtype, groupKeys kc.vals⟩,
    ⟨outName, Dtype.numD,
      (groupKeys kc.vals).map (fun k => meanOfGroup (groupRows kc.vals mc.vals k))⟩]⟩

/-! ### `_prepare_reviews` -/

/-- The error conditions the pipeline can raise. -/
inductive PyErr where
  | valueError (msg : String)
  | keyError (label : String)
  | typeError
deriving DecidableEq, Repr

/-- The reviews table's `rating` column (if present) holds only
numeric-or-missing cells — the spec's data model ("a numeric `rating`
(optional)"). -/
def ratingsOk (r : Table) : Bool :=
  match getColVals r "rating" with
  | some vs => aggOkVals vs
  | none => true

/-- `_prepare_reviews(reviews)` (source lines 52–61): empty frame when
`listing_id` is absent or when no aggregatable column (`rating`) exists;
otherwise group by `listing_id` and take the mean rating per group. -/
def prepare_reviews (reviews : Table) : Except PyErr Table :=
  match findCol reviews "listing_id" with
  | none => Except.ok emptyTable
  | some kc =>
    match findCol reviews "rating" with
    | none => Except.ok emptyTable
    | some mc =>
      if aggOkVals mc.vals then Except.ok (groupMeanTable kc mc "rating")
      else Except.error PyErr.typeError

/-! ### Merging -/

/-- The right-row indices matching a left key value.  pandas `merge` also
matches NaN keys to NaN keys. -/
def matchIdxs (lv : Value) (rkv : List Value) : List Nat :=
  (List.range rkv.length).filter (fun j => rkv.getD j Value.missing == lv)

/-- For each left row index, its matching right row indices. -/
def mergeStructure (lkv rkv : List Value) : List (Nat × List Nat) :=
  (List.range lkv.length).map (fun i => (i, matchIdxs (lkv.getD i Value.missing) rkv))

/-- Output rows contributed by one left row: one per match, or a single
padded row when unmatched (`how="left"`). -/
def blockLen (p : Nat × List Nat) : Nat := max 1 p.2.length

def stTotal (st : List (Nat × List Nat)) : Nat := (st.map blockLen).sum

/-- A left-side column of the merge result: each left cell is repeated once
per matching right row (once with no match). -/
def mergeLeftColVals (st : List (Nat × List Nat)) (vals : List Value) : List Value :=
  st.bind (fun p => List.replicate (blockLen p) (vals.getD p.1 Value.missing))

/-- A right-side column of the merge result: the matched right cells, or a
missing cell for an unmatched left row. -/
def mergeRightColVals (st : List (Nat × List Nat)) (vals : List Value) : List Value :=
  st.bind (fun p =>
    if p.2.isEmpty then [Value.missing]
    else p.2.map (fun j => vals.getD j Value.missing))

/-- Suffixing of overlapping column names (`suffixes=` of `merge`). -/
def sfxName (common : List String) (suf n : String) : String :=
  if common.contains n then n ++ suf else n

def commonNames (a b : Table) : List String :=
  (a.cols.map Col.name).filter (fun n => (b.cols.map Col.name).contains n)

/-- The ValueError message pandas raises when the two merge key columns have
incompatible dtypes (numeric vs object vs datetime), since pandas 0.23. -/
def mergeErrMsg : String :=
  "You are trying to merge on incompatible dtype columns"

/-- `left.merge(right, left_on=lk, right_on=rk, how="left")`.  A missing key
column raises `KeyError` (unreachable under the guards of `unify_data`); key
columns of different kinds (numeric / object / datetime) raise `ValueError`
as pandas does; otherwise all columns of both frames are kept (both key
columns included) and overlapping names get the suffixes. -/
def merge_lr (left right : Table) (lk rk sl sr : String) : Except PyErr Table :=
  match findCol left lk, findCol right rk with
  | some lc, some rc =>
    if lc.dtype = rc.dtype then
      Except.ok
        ⟨(left.cols.map (fun c => ⟨sfxName (commonNames left right) sl c.name, c.dtype,
            mergeLeftColVals (mergeStructure lc.vals rc.vals) c.vals⟩))
          ++ (right.cols.map (fun c => ⟨sfxName (commonNames left right) sr c.name, c.dtype,
            mergeRightColVals (mergeStructure lc.vals rc.vals) c.vals⟩))⟩
    else Except.error (PyErr.valueError mergeErrMsg)
  | none, _ => Except.error (PyErr.keyError lk)
  | some _, none => Except.error (PyErr.keyError rk)

/-- `left.merge(right, on=k, how="left", suffixes=(sl, sr))`, with the same
`KeyError` / `ValueError` behaviour as `merge_lr`: on success the join key
appears once (left position) and the right key column is dropped. -/
def merge_on (left right : Table) (k sl sr : String) : Except PyErr Table :=
  match findCol left k, findCol right k with
  | some lc, some rc =>
    if lc.dtype = rc.dtype then
      Except.ok
        ⟨(left.cols.map (fun c =>
            ⟨sfxName ((commonNames left right).filter (fun n => n != k)) sl c.name, c.dtype,
              mergeLeftColVals (mergeStructure lc.vals rc.vals) c.vals⟩))
          ++ ((right.cols.filter (fun c => c.name != k)).map (fun c =>
            ⟨sfxName ((commonNames left right).filter (fun n => n != k)) sr c.name, c.dtype,
              mergeRightColVals (mergeStructure lc.vals rc.vals) c.vals⟩))⟩
    else Except.error (PyErr.valueError mergeErrMsg)
  | _, _ => Except.error (PyErr.keyError k)

/-- `df.rename(columns={old: nw})` guarded by a presence check. -/
def renameCol (t : Table) (old nw : String) : Table :=
  if hasCol t old then
    ⟨t.cols.map (fun c => if c.name = old then ⟨nw, c.dtype, c.vals⟩ else c)⟩
  else t

/-- `_normalize_neighbourhoods(listings, neighbourhoods)` (source lines
64–71). -/
def normalize_neighbourhoods (listings neighbourhoods : Table) : Table × Table :=
  (renameCol listings "neighbourhood_cleansed" "neighbourhood",
   renameCol neighbourhoods "neighbourhood_group" "district")

/-- `unify_data(listings, reviews, neighbourhoods, idealista)` (source lines
74–92).  The `idealista` frame is accepted but intentionally unused
("Idealista no se usa porque requiere un mapeo más elaborado"); an exception
raised by either merge propagates to the caller. -/
def unify_data (listings reviews neighbourhoods idealista : Table) :
    Except PyErr Table :=
  let pair := normalize_neighbourhoods listings neighbourhoods
  match prepare_reviews reviews with
  | Except.error e => Except.error e
  | Except.ok rs =>
    match (if !rs.isEmpty && hasCol pair.1 "id" then
        merge_lr pair.1 rs "id" "listing_id" "_x" "_y"
      else Except.ok pair.1) with
    | Except.error e => Except.error e
    | Except.ok ln2 =>
      if hasCol ln2 "neighbourhood" && hasCol pair.2 "neighbourhood" then
        merge_on ln2 pair.2 "neighbourhood" "" "_ref"
      else Except.ok ln2

/-! ### Aggregators -/

/-- The positional row pairs of a two-column selection in which both cells
are non-missing — the rows `df[[k, m]].dropna()` keeps, and the spec's
"rows where both the area and the metric are non-missing". -/
def completePairs (kvs mvs : List Value) : List (Value × Value) :=
  (kvs.zip mvs).filter
    (fun p => !(p.1 == Value.missing) && !(p.2 == Value.missing))

/-- `df[[kc.name, mc.name]].dropna()`, column-wise. -/
def dropna2 (kc mc : Col) : Col × Col :=
  (⟨kc.name, kc.dtype, (completePairs kc.vals mc.vals).map Prod.fst⟩,
   ⟨mc.name, mc.dtype, (completePairs kc.vals mc.vals).map Prod.snd⟩)

/-- `df.sort_values(n, ascending=False)`: reorder the rows of every column
by descending value of column `n`.  (pandas places NaN last; no modeled call
sorts a column containing NaN, see `meanOfGroup` under the dropna.) -/
def sortRowsDescBy (t : Table) (n : String) : Table :=
  match findCol t n with
  | none => t
  | some c =>
    let ord := List.insertionSort
      (fun i j => Vge (c.vals.getD i Value.missing) (c.vals.getD j Value.missing))
      (List.range (nrows t))
    ⟨t.cols.map (fun c0 => ⟨c0.name, c0.dtype, ord.map (fun i => c0.vals.getD i Value.missing)⟩)⟩

/-- `price_by_area(df, level)` (source lines 95–107).  The level check is
synchronous; an absent level column yields an empty frame; the selection
`df[[level, "precio_noche"]]` raises `KeyError` when the metric column is
absent. -/
def price_by_area (t : Table) (level : String) : Except PyErr Table :=
  if !(level == "district" || level == "neighbourhood") then
    Except.error (PyErr.valueError "level debe ser \x27district\x27 o \x27neighbourhood\x27")
  else
    match findCol t level with
    | none => Except.ok emptyTable
    | some kc0 =>
      match findCol t "precio_noche" with
      | none => Except.error (PyErr.keyError "precio_noche")
      | some mc0 =>
        let p := dropna2 kc0 mc0
        if aggOkVals p.2.vals then
          Except.ok (sortRowsDescBy (groupMeanTable p.1 p.2 "precio_medio") "precio_medio")
        else Except.error PyErr.typeError

/-- `occupancy_by_area(df, level)` (source lines 110–122). -/
def occupancy_by_area (t : Table) (level : String) : Except PyErr Table :=
  if !(level == "district" || level == "neighbourhood") then
    Except.error (PyErr.valueError "level debe ser \x27district\x27 o \x27neighbourhood\x27")
  else
    match findCol t level with
    | none => Except.ok emptyTable
    | some kc0 =>
      match findCol t "ocupacion_estimada" with
      | none => Except.error (PyErr.keyError "ocupacion_estimada")
      | some mc0 =>
        let p := dropna2 kc0 mc0
        if aggOkVals p.2.vals then
          Except.ok (sortRowsDescBy (groupMeanTable p.1 p.2 "ocupacion_media") "ocupacion_media")
        else Except.error PyErr.typeError

/-! ### Basic table lemmas -/

lemma find?_name_map (l : List Col) (f : Col → Col) (hf : ∀ c, (f c).name = c.name)
    (n : String) :
    (l.map f).find? (fun c => c.name = n) = (l.find? (fun c => c.name = n)).map f := by
  induction l with
  | nil => rfl
  | cons c cs ih =>
    simp only [List.map_cons]
    by_cases h : c.name = n
    · rw [List.find?_cons_of_pos _ (by simp [hf, h]), List.find?_cons_of_pos _ (by simp [h])]
      rfl
    · rw [List.find?_cons_of_neg _ (by simp [hf, h]), List.find?_cons_of_neg _ (by simp [h]), ih]

lemma findCol_mapCols (t : Table) (f : Col → Col) (hf : ∀ c, (f c).name = c.name)
    (n : String) :
    findCol ⟨t.cols.map f⟩ n = (findCol t n).map f :=
  find?_name_map t.cols f hf n

lemma findCol_isSome (t : Table) (n : String) : (findCol t n).isSome = hasCol t n := by
  unfold findCol hasCol
  induction t.cols with
  | nil => rfl
  | cons c cs ih =>
    by_cases h : c.name = n
    · rw [List.find?_cons_of_pos _ (by simp [h])]
      simp [h]
    · rw [List.find?_cons_of_neg _ (by simp [h])]
      simp [h, ih]

lemma findCol_eq_none (t : Table) (n : String) (h : hasCol t n = false) :
    findCol t n = none := by
  have h2 := findCol_isSome t n
  rw [h] at h2
  exact Option.not_isSome_iff_eq_none.mp (by simp [h2])

lemma findCol_of_hasCol (t : Table) (n : String) (h : hasCol t n = true) :
    ∃ c, findCol t n = some c := by
  have h2 := findCol_isSome t n
  rw [h] at h2
  exact Option.isSome_iff_exists.mp h2

lemma findCol_name (t : Table) (n : String) (c : Col) (h : findCol t n = some c) :
    c.name = n := by
  have := List.find?_some h
  simpa using this

lemma findCol_upsert_self (t : Table) (c : Col) :
    findCol (upsertCol t c) c.name = some c := by
  unfold upsertCol
  by_cases h : hasCol t c.name
  · obtain ⟨c0, hc0⟩ := findCol_of_hasCol t c.name h
    have hname := findCol_name t c.name c0 hc0
    simp only [h, if_true]
    rw [findCol_mapCols t _ (fun x => by by_cases hx : x.name = c.name <;> simp [hx]), hc0]
    simp [hname]
  · rw [if_neg h]
    have hnone := findCol_eq_none t c.name (by simpa using h)
    unfold findCol at hnone ⊢
    rw [List.find?_append, hnone]
    simp

lemma findCol_upsert_ne (t : Table) (c : Col) (n : String) (h : n ≠ c.name) :
    findCol (upsertCol t c) n = findCol t n := by
  unfold upsertCol
  by_cases hc : hasCol t c.name
  · simp only [hc, if_true]
    rw [findCol_mapCols t _ (fun x => by by_cases hx : x.name = c.name <;> simp [hx])]
    cases hfind : findCol t n with
    | none => rfl
    | some c0 =>
      have hname := findCol_name t n c0 hfind
      have hne : ¬(c0.name = c.name) := by
        rw [hname]
        exact h
      simp [hne]
  · rw [if_neg hc]
    unfold findCol
    rw [List.find?_append]
    have hlast : List.find? (fun x => x.name = n) [c] = none := by
      simp [Ne.symm h]
    rw [hlast]
    cases hfind : List.find? (fun x => decide (x.name = n)) t.cols <;> rfl

/-! ### getD helpers -/

lemma getD_append_left {α : Type} (l m : List α) (i : Nat) (d : α) (h : i < l.length) :
    (l ++ m).getD i d = l.getD i d := by
  rw [List.getD_eq_getElem _ d (by simp; omega), List.getD_eq_getElem _ d h]
  exact List.getElem_append_left h

lemma getD_append_offset {α : Type} (l m : List α) (i : Nat) (d : α) :
    (l ++ m).getD (l.length + i) d = m.getD i d := by
  rcases Nat.lt_or_ge i m.length with h | h
  · rw [List.getD_eq_getElem _ d (by simp; omega), List.getD_eq_getElem _ d h]
    simp [List.getElem_append_right]
  · rw [List.getD_eq_default _ d (by simp; omega), List.getD_eq_default _ d (by omega)]

lemma getD_map_lt {α β : Type} (f : α → β) (l : List α) (i : Nat) (d : α) (d2 : β)
    (h : i < l.length) :
    (l.map f).getD i d2 = f (l.getD i d) := by
  rw [List.getD_eq_getElem _ d2 (by simpa), List.getD_eq_getElem _ d h, List.getElem_map]

lemma getD_mem {α : Type} (l : List α) (i : Nat) (d : α) (h : i < l.length) :
    l.getD i d ∈ l := by
  rw [List.getD_eq_getElem l d h]
  exact List.getElem_mem h

lemma range_map_getD {α : Type} (l : List α) (d : α) :
    (List.range l.length).map (fun i => l.getD i d) = l := by
  induction l with
  | nil => rfl
  | cons a l ih =>
    rw [List.length_cons, List.range_succ_eq_map, List.map_cons, List.map_map]
    have hc : ((fun i => (a :: l).getD i d) ∘ (· + 1)) = (fun i => l.getD i d) :=
      funext fun i => rfl
    rw [hc, ih]
    rfl

/-! ### Claims C6, C2, C10 -/

/-- Claim C6: for every table and every level value outside
{district, neighbourhood}, `price_by_area` and `occupancy_by_area` raise the
invalid-argument condition (`ValueError`) synchronously — the result is this
error for every table, so the table is never touched. -/
theorem claim_C6 (t : Table) (level : String)
    (h1 : level ≠ "district") (h2 : level ≠ "neighbourhood") :
    price_by_area t level
      = Except.error (PyErr.valueError "level debe ser \x27district\x27 o \x27neighbourhood\x27") ∧
    occupancy_by_area t level
      = Except.error (PyErr.valueError "level debe ser \x27district\x27 o \x27neighbourhood\x27") := by
  have hcond : (!(level == "district" || level == "neighbourhood")) = true := by
    simp [h1, h2]
  constructor
  · unfold price_by_area
    rw [if_pos hcond]
  · unfold occupancy_by_area
    rw [if_pos hcond]

theorem claim_C6_witness :
    ("city" ≠ "district" ∧ "city" ≠ "neighbourhood") ∧
    price_by_area emptyTable "city"
      = Except.error (PyErr.valueError "level debe ser \x27district\x27 o \x27neighbourhood\x27") :=
  ⟨⟨by decide, by decide⟩, (claim_C6 emptyTable "city" (by decide) (by decide)).1⟩

/-- A table with the level column present but no metric column: the claim-C2
counterexample input. -/
def T2cx : Table := ⟨[⟨"district", Dtype.obj, [Value.str "Centro"]⟩]⟩

/-- Claim C2, counterexample: with a `district` column present and
`precio_noche` absent, `price_by_area` raises a `KeyError` (the selection
`df[[level, "precio_noche"]]` fails), so an absent metric column is not
handled softly. -/
theorem claim_C2_counterexample :
    price_by_area T2cx "district" = Except.error (PyErr.keyError "precio_noche") := by
  rfl

/-- Claim C2, amended: an absent level column is handled softly (empty result
table) by both aggregators, but when the level column is present and the
metric column (`precio_noche` / `ocupacion_estimada`) is absent, the
aggregator raises a `KeyError` instead of degrading softly. -/
theorem claim_C2_amended (t : Table) (level : String)
    (hl : level = "district" ∨ level = "neighbourhood") :
    (hasCol t level = false →
      price_by_area t level = Except.ok emptyTable ∧
      occupancy_by_area t level = Except.ok emptyTable) ∧
    (hasCol t level = true → hasCol t "precio_noche" = false →
      price_by_area t level = Except.error (PyErr.keyError "precio_noche")) ∧
    (hasCol t level = true → hasCol t "ocupacion_estimada" = false →
      occupancy_by_area t level = Except.error (PyErr.keyError "ocupacion_estimada")) := by
  have hcond : ¬((!(level == "district" || level == "neighbourhood")) = true) := by
    rcases hl with rfl | rfl <;> simp
  refine ⟨?_, ?_, ?_⟩
  · intro habs
    have hfind := findCol_eq_none t level habs
    constructor
    · unfold price_by_area
      rw [if_neg hcond, hfind]
    · unfold occupancy_by_area
      rw [if_neg hcond, hfind]
  · intro hlev hmetr
    obtain ⟨kc, hkc⟩ := findCol_of_hasCol t level hlev
    have hfind := findCol_eq_none t "precio_noche" hmetr
    unfold price_by_area
    rw [if_neg hcond, hkc, hfind]
  · intro hlev hmetr
    obtain ⟨kc, hkc⟩ := findCol_of_hasCol t level hlev
    have hfind := findCol_eq_none t "ocupacion_estimada" hmetr
    unfold occupancy_by_area
    rw [if_neg hcond, hkc, hfind]

theorem claim_C2_witness :
    price_by_area (⟨[⟨"x", Dtype.obj, []⟩]⟩ : Table) "district" = Except.ok emptyTable ∧
    occupancy_by_area (⟨[⟨"x", Dtype.obj, []⟩]⟩ : Table) "district" = Except.ok emptyTable :=
  (claim_C2_amended ⟨[⟨"x", Dtype.obj, []⟩]⟩ "district" (Or.inl rfl)).1 (by decide)

lemma normalizeColStep_obj (c : Col) (hdn : dateNamed c.name = false)
    (hobj : c.dtype = Dtype.obj) :
    normalizeColStep c
      = if c.vals.all numericParseable then
          (⟨c.name, Dtype.numD, c.vals.map coerceCell⟩ : Col)
        else c := by
  have h1 : normalizeColStep c
      = (if c.dtype = Dtype.obj then
          (if c.vals.all numericParseable then
            (⟨c.name, Dtype.numD, c.vals.map coerceCell⟩ : Col)
          else c)
        else c) := by
    simp only [normalizeColStep]
    rw [show (if dateNamed c.name = true then
          (⟨c.name, Dtype.dateD, c.vals.map toDatetimeCell⟩ : Col) else c) = c
        from if_neg (by simp [hdn])]
  rw [h1, if_pos hobj]

/-- Claim C10: `normalize_types` coerces a non-date-named `object` column
atomically — if every cell is numerically parseable the whole column becomes
numeric, and if any cell fails to parse the column is left entirely
unchanged (no per-value missing markers are introduced). -/
theorem claim_C10 (t : Table) (i : Nat) (hi : i < t.cols.length)
    (hdn : dateNamed (t.cols.getD i defaultCol).name = false)
    (hobj : (t.cols.getD i defaultCol).dtype = Dtype.obj) :
    ((t.cols.getD i defaultCol).vals.all numericParseable = true →
      (normalize_types t).cols.getD i defaultCol
        = ⟨(t.cols.getD i defaultCol).name, Dtype.numD,
            (t.cols.getD i defaultCol).vals.map coerceCell⟩) ∧
    ((t.cols.getD i defaultCol).vals.all numericParseable = false →
      (normalize_types t).cols.getD i defaultCol = t.cols.getD i defaultCol) := by
  have hmap : (normalize_types t).cols.getD i defaultCol
      = normalizeColStep (t.cols.getD i defaultCol) := by
    show (t.cols.map normalizeColStep).getD i defaultCol = _
    rw [getD_map_lt normalizeColStep t.cols i defaultCol defaultCol hi]
  rw [hmap, normalizeColStep_obj _ hdn hobj]
  constructor
  · intro hall
    rw [if_pos hall]
  · intro hfail
    rw [if_neg (by rw [hfail]; decide)]

/-- A mixed text column (`"n/a"` does not parse): left untouched by
`normalize_types`. -/
def Tmix : Table := ⟨[⟨"x", Dtype.obj, [Value.str "1", Value.str "n/a"]⟩]⟩

theorem claim_C10_witness :
    (normalize_types Tmix).cols.getD 0 defaultCol = Tmix.cols.getD 0 defaultCol :=
  (claim_C10 Tmix 0 (by decide) (by decide) (by decide)).2 (by decide)

/-! ### Claims C7 and C8 -/

lemma cleanPrice_ex_currency :
    cleanPriceCell (Value.str "$1,200.50") = Value.num (2401/2 : ℚ) := by
  have h1 : stripPriceStr "$1,200.50" = "1200.50" := by decide
  show coerceCell (Value.str (stripPriceStr "$1,200.50")) = _
  rw [h1]
  have h2 : parseNumQ "1200.50"
      = some (digitsValQ ['1', '2', '0', '0'] + digitsValQ ['5', '0'] / (10 : ℚ) ^ 2) := rfl
  show (match parseNumQ "1200.50" with
        | some q => Value.num q
        | none => Value.missing) = _
  rw [h2]
  have h3 : digitsValN ['1', '2', '0', '0'] = 1200 := by decide
  have h4 : digitsValN ['5', '0'] = 50 := by decide
  simp only [digitsValQ, h3, h4, Value.num.injEq]
  norm_num

lemma cleanPrice_ex_na : cleanPriceCell (Value.str "n/a") = Value.missing := by rfl

lemma getColVals_setPriceCol (t : Table) (n m : String) :
    getColVals (setPriceCol t m) n
      = if n = m then (getColVals t n).map (List.map cleanPriceCell)
        else getColVals t n := by
  unfold setPriceCol
  by_cases hm : hasCol t m
  · rw [if_pos hm]
    unfold getColVals
    rw [findCol_mapCols t _ (fun c => by by_cases hc : c.name = m <;> simp [hc, priceColUpdate])]
    by_cases hnm : n = m
    · subst hnm
      rw [if_pos rfl]
      cases hfind : findCol t n with
      | none => simp
      | some c0 =>
        have hname := findCol_name t n c0 hfind
        simp [hname, priceColUpdate]
    · rw [if_neg hnm]
      cases hfind : findCol t n with
      | none => simp
      | some c0 =>
        have hname := findCol_name t n c0 hfind
        have hne : ¬(c0.name = m) := by
          rw [hname]
          exact hnm
        simp [hne]
  · rw [if_neg hm]
    by_cases hnm : n = m
    · subst hnm
      rw [if_pos rfl]
      unfold getColVals
      rw [findCol_eq_none t n (by simpa using hm)]
      rfl
    · rw [if_neg hnm]

/-- Claim C7: `standardize_prices` maps every present candidate price column
cell-wise through text conversion, currency/comma stripping, trimming and
numeric parsing; `"$1,200.50"` parses to 1200.50 and `"n/a"` becomes
missing. -/
theorem claim_C7 (t : Table) (n : String) (hn : n ∈ priceCandidates)
    (vs : List Value) (h : getColVals t n = some vs) :
    getColVals (standardize_prices t) n = some (vs.map cleanPriceCell) ∧
    cleanPriceCell (Value.str "$1,200.50") = Value.num (2401/2 : ℚ) ∧
    cleanPriceCell (Value.str "n/a") = Value.missing := by
  refine ⟨?_, cleanPrice_ex_currency, cleanPrice_ex_na⟩
  have hexp : standardize_prices t
      = setPriceCol (setPriceCol (setPriceCol (setPriceCol t "price")
          "price_per_night") "precio") "price_m2" := by
    simp [standardize_prices, priceCandidates]
  rw [hexp]
  simp only [priceCandidates, List.mem_cons, List.not_mem_nil, or_false] at hn
  rcases hn with rfl | rfl | rfl | rfl <;>
    simp [getColVals_setPriceCol, h]

/-- The concrete claim-C7 input: a one-column listings price table. -/
def T7 : Table := ⟨[⟨"price", Dtype.obj, [Value.str "$1,200.50", Value.str "n/a"]⟩]⟩

theorem claim_C7_witness :
    ("price" ∈ priceCandidates ∧ getColVals T7 "price"
        = some [Value.str "$1,200.50", Value.str "n/a"]) ∧
    getColVals (standardize_prices T7) "price"
        = some [Value.num (2401/2 : ℚ), Value.missing] := by
  refine ⟨⟨by decide, by rfl⟩, ?_⟩
  have h := (claim_C7 T7 "price" (by decide) [Value.str "$1,200.50", Value.str "n/a"] (by rfl)).1
  have hm : List.map cleanPriceCell [Value.str "$1,200.50", Value.str "n/a"]
      = [Value.num (2401/2 : ℚ), Value.missing] := by
    rw [List.map_cons, List.map_cons, List.map_nil, cleanPrice_ex_currency, cleanPrice_ex_na]
  exact h.trans (by rw [hm])

/-- Claim C8: `add_basic_columns` derives `precio_noche` as the numeric
coercion of `price` when present, and `ocupacion_estimada` as 365 minus the
numeric coercion of `availability_365` when present (missing propagates);
when both source columns are absent the table is returned unchanged. -/
theorem claim_C8 (t : Table) :
    (∀ vs, getColVals t "price" = some vs →
      getColVals (add_basic_columns t) "precio_noche" = some (vs.map coerceCell)) ∧
    (∀ vs, getColVals t "availability_365" = some vs →
      getColVals (add_basic_columns t) "ocupacion_estimada"
        = some (vs.map (fun v => sub365Cell (coerceCell v)))) ∧
    (hasCol t "price" = false → hasCol t "availability_365" = false →
      add_basic_columns t = t) := by
  refine ⟨?_, ?_, ?_⟩
  · intro vs h
    cases hfp : findCol t "price" with
    | none =>
      rw [getColVals, hfp] at h
      exact absurd h (by simp)
    | some pc =>
      have hvals : pc.vals = vs := by
        rw [getColVals, hfp] at h
        simpa using h
      have h1 : getColVals (addPrecio t) "precio_noche" = some (vs.map coerceCell) := by
        unfold addPrecio
        rw [hfp, getColVals]
        rw [show "precio_noche"
            = (⟨"precio_noche", Dtype.numD, pc.vals.map coerceCell⟩ : Col).name from rfl,
          findCol_upsert_self]
        simp [hvals]
      unfold add_basic_columns addOcup
      cases hfa : findCol (addPrecio t) "availability_365" with
      | none => exact h1
      | some c2 =>
        rw [getColVals, findCol_upsert_ne (addPrecio t)
          ⟨"ocupacion_estimada", Dtype.numD, c2.vals.map (fun v => sub365Cell (coerceCell v))⟩
          "precio_noche" (by simp)]
        exact h1
  · intro vs h
    cases hfa : findCol t "availability_365" with
    | none =>
      rw [getColVals, hfa] at h
      exact absurd h (by simp)
    | some ac =>
      have hvals : ac.vals = vs := by
        rw [getColVals, hfa] at h
        simpa using h
      have hs : findCol (addPrecio t) "availability_365" = some ac := by
        unfold addPrecio
        cases hfp : findCol t "price" with
        | none => exact hfa
        | some pc =>
          rw [findCol_upsert_ne t ⟨"precio_noche", Dtype.numD, pc.vals.map coerceCell⟩
            "availability_365" (by simp)]
          exact hfa
      unfold add_basic_columns addOcup
      rw [hs, getColVals]
      rw [show "ocupacion_estimada"
          = (⟨"ocupacion_estimada", Dtype.numD,
              ac.vals.map (fun v => sub365Cell (coerceCell v))⟩ : Col).name from rfl,
        findCol_upsert_self]
      simp [hvals]
  · intro hp ha
    unfold add_basic_columns addPrecio addOcup
    rw [findCol_eq_none t "price" hp, findCol_eq_none t "availability_365" ha]

/-- The concrete claim-C8 input: one listing with `availability_365 = 40`. -/
def T8 : Table := ⟨[⟨"availability_365", Dtype.numD, [Value.num 40]⟩]⟩

theorem claim_C8_witness :
    getColVals T8 "availability_365" = some [Value.num 40] ∧
    getColVals (add_basic_columns T8) "ocupacion_estimada" = some [Value.num 325] := by
  refine ⟨by rfl, ?_⟩
  have h := (claim_C8 T8).2.1 [Value.num 40] (by rfl)
  have hm : List.map (fun v => sub365Cell (coerceCell v)) [Value.num 40]
      = [Value.num 325] := by
    rw [List.map_cons, List.map_nil]
    show [Value.num (365 - 40)] = [Value.num 325]
    norm_num
  exact h.trans (by rw [hm])

/-! ### Group-by lemmas and claim C4 -/

lemma groupKeys_nodup (kvs : List Value) : (groupKeys kvs).Nodup :=
  ((List.perm_insertionSort Vle _).nodup_iff).mpr (List.nodup_dedup _)

lemma mem_groupKeys (kvs : List Value) (v : Value) :
    v ∈ groupKeys kvs ↔ (v ≠ Value.missing ∧ v ∈ kvs) := by
  unfold groupKeys
  rw [(List.perm_insertionSort Vle _).mem_iff, List.mem_dedup, List.mem_filter]
  simp [and_comm]

/-- Claim C4: `_prepare_reviews` returns an empty frame when `listing_id` or
`rating` is absent; otherwise (for numeric-or-missing ratings, the spec's
data model) it returns one row per distinct non-missing `listing_id`, each
carrying the mean of that listing's (non-missing) ratings. -/
theorem claim_C4 (r : Table) :
    (hasCol r "listing_id" = false → prepare_reviews r = Except.ok emptyTable) ∧
    (hasCol r "listing_id" = true → hasCol r "rating" = false →
      prepare_reviews r = Except.ok emptyTable) ∧
    (∀ kc mc, findCol r "listing_id" = some kc → findCol r "rating" = some mc →
      aggOkVals mc.vals = true →
      ∃ keys means,
        prepare_reviews r
          = Except.ok ⟨[⟨"listing_id", kc.dtype, keys⟩, ⟨"rating", Dtype.numD, means⟩]⟩ ∧
        keys.Nodup ∧
        (∀ v, v ∈ keys ↔ (v ≠ Value.missing ∧ v ∈ kc.vals)) ∧
        means = keys.map (fun k => meanOfGroup (groupRows kc.vals mc.vals k))) := by
  refine ⟨?_, ?_, ?_⟩
  · intro h
    unfold prepare_reviews
    rw [findCol_eq_none r "listing_id" h]
  · intro h1 h2
    obtain ⟨kc, hkc⟩ := findCol_of_hasCol r "listing_id" h1
    unfold prepare_reviews
    rw [hkc, findCol_eq_none r "rating" h2]
  · intro kc mc hkc hmc hagg
    have hname := findCol_name r "listing_id" kc hkc
    refine ⟨groupKeys kc.vals,
      (groupKeys kc.vals).map (fun k => meanOfGroup (groupRows kc.vals mc.vals k)),
      ?_, groupKeys_nodup kc.vals, fun v => mem_groupKeys kc.vals v, rfl⟩
    unfold prepare_reviews
    rw [hkc, hmc]
    show (if aggOkVals mc.vals = true then Except.ok (groupMeanTable kc mc "rating")
          else Except.error PyErr.typeError) = _
    rw [if_pos hagg]
    unfold groupMeanTable
    rw [hname]

/-- The claim-C4 scenario input:
reviews = [{listing_id: 1, rating: 4}, {listing_id: 1, rating: 5},
{listing_id: 2, rating: 3}]. -/
def R4 : Table :=
  ⟨[⟨"listing_id", Dtype.numD, [Value.num 1, Value.num 1, Value.num 2]⟩,
    ⟨"rating", Dtype.numD, [Value.num 4, Value.num 5, Value.num 3]⟩]⟩

lemma R4_keys : groupKeys [Value.num 1, Value.num 1, Value.num 2]
    = [Value.num 1, Value.num 2] := by decide

lemma R4_mean1 :
    meanOfGroup (groupRows [Value.num 1, Value.num 1, Value.num 2]
      [Value.num 4, Value.num 5, Value.num 3] (Value.num 1)) = Value.num (9/2 : ℚ) := by
  have hg : groupRows [Value.num 1, Value.num 1, Value.num 2]
      [Value.num 4, Value.num 5, Value.num 3] (Value.num 1)
      = [Value.num 4, Value.num 5] := by decide
  rw [hg]
  simp [meanOfGroup, toQOpt]
  norm_num

lemma R4_mean2 :
    meanOfGroup (groupRows [Value.num 1, Value.num 1, Value.num 2]
      [Value.num 4, Value.num 5, Value.num 3] (Value.num 2)) = Value.num 3 := by
  have hg : groupRows [Value.num 1, Value.num 1, Value.num 2]
      [Value.num 4, Value.num 5, Value.num 3] (Value.num 2)
      = [Value.num 3] := by decide
  rw [hg]
  simp [meanOfGroup, toQOpt]

theorem claim_C4_witness :
    prepare_reviews R4
      = Except.ok ⟨[⟨"listing_id", Dtype.numD, [Value.num 1, Value.num 2]⟩,
                    ⟨"rating", Dtype.numD, [Value.num (9/2 : ℚ), Value.num 3]⟩]⟩ ∧
    (∃ keys means,
      prepare_reviews R4
        = Except.ok ⟨[⟨"listing_id", Dtype.numD, keys⟩, ⟨"rating", Dtype.numD, means⟩]⟩ ∧
      keys.Nodup ∧
      (∀ v, v ∈ keys ↔ (v ≠ Value.missing ∧ v ∈ [Value.num 1, Value.num 1, Value.num 2])) ∧
      means = keys.map (fun k => meanOfGroup (groupRows
        [Value.num 1, Value.num 1, Value.num 2] [Value.num 4, Value.num 5, Value.num 3] k))) := by
  constructor
  · show Except.ok (groupMeanTable
        ⟨"listing_id", Dtype.numD, [Value.num 1, Value.num 1, Value.num 2]⟩
        ⟨"rating", Dtype.numD, [Value.num 4, Value.num 5, Value.num 3]⟩ "rating") = _
    unfold groupMeanTable
    rw [show (⟨"listing_id", Dtype.numD, [Value.num 1, Value.num 1, Value.num 2]⟩ : Col).vals
        = [Value.num 1, Value.num 1, Value.num 2] from rfl]
    rw [R4_keys, List.map_cons, List.map_cons, List.map_nil, R4_mean1, R4_mean2]
  · exact (claim_C4 R4).2.2
      ⟨"listing_id", Dtype.numD, [Value.num 1, Value.num 1, Value.num 2]⟩
      ⟨"rating", Dtype.numD, [Value.num 4, Value.num 5, Value.num 3]⟩
      rfl rfl (by decide)

/-! ### Claim C5 -/

lemma map_getD_perm {α : Type} (l : List α) (d : α) (ord : List ℕ)
    (h : List.Perm ord (List.range l.length)) :
    List.Perm (ord.map (fun i => l.getD i d)) l := by
  have h2 := h.map (fun i => l.getD i d)
  rwa [range_map_getD] at h2

lemma perm_range_lt (ord : List ℕ) (n j : ℕ) (h : List.Perm ord (List.range n))
    (hj : j < ord.length) : ord.getD j 0 < n := by
  have hm : ord.getD j 0 ∈ ord := getD_mem ord j 0 hj
  exact List.mem_range.mp (h.mem_iff.mp hm)

lemma completePairs_fst_ne_missing (kvs mvs : List Value) (v : Value)
    (h : v ∈ (completePairs kvs mvs).map Prod.fst) : v ≠ Value.missing := by
  obtain ⟨p, hp, rfl⟩ := List.mem_map.mp h
  have h2 := (List.mem_filter.mp hp).2
  simp only [Bool.and_eq_true, Bool.not_eq_true', beq_eq_false_iff_ne] at h2
  exact h2.1

/-- The area values of the complete (area, metric) row pairs. -/
def pairsFst (kc mc : Col) : List Value := (completePairs kc.vals mc.vals).map Prod.fst

/-- The metric values of the complete (area, metric) row pairs. -/
def pairsSnd (kc mc : Col) : List Value := (completePairs kc.vals mc.vals).map Prod.snd

/-- The distinct areas of the aggregation result. -/
def areaKeys (kc mc : Col) : List Value := groupKeys (pairsFst kc mc)

/-- The mean metric of one area's group. -/
def areaMean (kc mc : Col) (k : Value) : Value :=
  meanOfGroup (groupRows (pairsFst kc mc) (pairsSnd kc mc) k)

/-- The per-area means before the descending sort. -/
def areaMeans (kc mc : Col) : List Value := (areaKeys kc mc).map (areaMean kc mc)

/-- The row comparison used by `sort_values(ascending=False)` on the mean
column. -/
def sortRel (kc mc : Col) : ℕ → ℕ → Prop :=
  fun i j => Vge ((areaMeans kc mc).getD i Value.missing)
    ((areaMeans kc mc).getD j Value.missing)

instance (kc mc : Col) (i j : ℕ) : Decidable (sortRel kc mc i j) := by
  unfold sortRel
  infer_instance

/-- The row order produced by the descending sort. -/
def sortOrd (kc mc : Col) : List ℕ :=
  List.insertionSort (sortRel kc mc) (List.range (areaKeys kc mc).length)

instance (kc mc : Col) : IsTotal ℕ (sortRel kc mc) :=
  ⟨fun _ _ => IsTotal.total (r := Vle) _ _⟩

instance (kc mc : Col) : IsTrans ℕ (sortRel kc mc) :=
  ⟨fun _ _ _ hab hbc => IsTrans.trans (r := Vle) _ _ _ hbc hab⟩

/-- Claim C5, amended: with the level column absent `price_by_area` returns
an empty table; with the level column, the `precio_noche` column and
numeric-or-missing metric values (the data model for the derived price), it
returns one row per distinct area value among the complete (area, price)
pairs, each carrying the mean price over those pairs, sorted descending by
the mean.  (The unamended claim fails when `precio_noche` is absent: a
`KeyError` is raised, see the counterexample.) -/
theorem claim_C5_amended (t : Table) (level : String)
    (hl : level = "district" ∨ level = "neighbourhood") :
    (hasCol t level = false → price_by_area t level = Except.ok emptyTable) ∧
    (∀ kc mc, findCol t level = some kc → findCol t "precio_noche" = some mc →
      aggOkVals ((completePairs kc.vals mc.vals).map Prod.snd) = true →
      ∃ keys means,
        price_by_area t level
          = Except.ok ⟨[⟨level, kc.dtype, keys⟩, ⟨"precio_medio", Dtype.numD, means⟩]⟩ ∧
        keys.Nodup ∧
        (∀ v, v ∈ keys ↔ v ∈ (completePairs kc.vals mc.vals).map Prod.fst) ∧
        means.length = keys.length ∧
        (∀ j, j < keys.length →
          means.getD j Value.missing
            = meanOfGroup (groupRows ((completePairs kc.vals mc.vals).map Prod.fst)
                ((completePairs kc.vals mc.vals).map Prod.snd)
                (keys.getD j Value.missing))) ∧
        List.Chain' (fun a b => Vge a b) means) := by
  have hcond : ¬((!(level == "district" || level == "neighbourhood")) = true) := by
    rcases hl with rfl | rfl <;> simp
  constructor
  · intro habs
    unfold price_by_area
    rw [if_neg hcond, findCol_eq_none t level habs]
  · intro kc mc hkc hmc hagg
    have hname := findCol_name t level kc hkc
    have hlne : ¬(level = "precio_medio") := by
      rcases hl with rfl | rfl <;> decide
    have hperm : List.Perm (sortOrd kc mc) (List.range (areaKeys kc mc).length) :=
      List.perm_insertionSort _ _
    have hred : price_by_area t level
        = Except.ok (sortRowsDescBy
            (groupMeanTable ⟨kc.name, kc.dtype, pairsFst kc mc⟩
              ⟨mc.name, mc.dtype, pairsSnd kc mc⟩ "precio_medio") "precio_medio") := by
      unfold price_by_area
      rw [if_neg hcond, hkc, hmc]
      show (if aggOkVals ((completePairs kc.vals mc.vals).map Prod.snd) = true then _
            else Except.error PyErr.typeError) = _
      rw [if_pos hagg]
      rfl
    have hfG : findCol
        (groupMeanTable ⟨kc.name, kc.dtype, pairsFst kc mc⟩
          ⟨mc.name, mc.dtype, pairsSnd kc mc⟩ "precio_medio") "precio_medio"
        = some ⟨"precio_medio", Dtype.numD, areaMeans kc mc⟩ := by
      unfold groupMeanTable findCol
      rw [List.find?_cons_of_neg _ (by simp [hname, hlne]),
        List.find?_cons_of_pos _ (by simp)]
      rfl
    refine ⟨(sortOrd kc mc).map (fun i => (areaKeys kc mc).getD i Value.missing),
      (sortOrd kc mc).map (fun i => (areaMeans kc mc).getD i Value.missing),
      ?_, ?_, ?_, ?_, ?_, ?_⟩
    · rw [hred]
      unfold sortRowsDescBy
      rw [hfG, hname]
      rfl
    · exact ((map_getD_perm (areaKeys kc mc) Value.missing (sortOrd kc mc)
        hperm).nodup_iff).mpr (groupKeys_nodup _)
    · intro v
      rw [(map_getD_perm (areaKeys kc mc) Value.missing (sortOrd kc mc) hperm).mem_iff]
      show v ∈ groupKeys (pairsFst kc mc) ↔ _
      rw [mem_groupKeys]
      constructor
      · exact fun h => h.2
      · exact fun h => ⟨completePairs_fst_ne_missing _ _ v h, h⟩
    · simp
    · intro j hj
      have hjo : j < (sortOrd kc mc).length := by
        simpa using hj
      have hlt := perm_range_lt _ _ j hperm hjo
      rw [getD_map_lt _ _ j 0 Value.missing hjo, getD_map_lt _ _ j 0 Value.missing hjo,
        show areaMeans kc mc = (areaKeys kc mc).map (areaMean kc mc) from rfl,
        getD_map_lt (areaMean kc mc) (areaKeys kc mc) _ Value.missing Value.missing hlt]
      rfl
    · have hsorted := List.sorted_insertionSort (sortRel kc mc)
        (List.range (areaKeys kc mc).length)
      exact List.Pairwise.chain' ((List.pairwise_map).mpr hsorted)

/-- A table with a `neighbourhood` column but no `precio_noche` column: the
claim-C5 counterexample input. -/
def T5cx : Table := ⟨[⟨"neighbourhood", Dtype.obj, [Value.str "Sol", Value.str "Lavapies"]⟩]⟩

/-- Claim C5, counterexample: the level column is present, yet
`price_by_area` does not return a table at all — it raises `KeyError`
because `precio_noche` is absent. -/
theorem claim_C5_counterexample :
    price_by_area T5cx "neighbourhood" = Except.error (PyErr.keyError "precio_noche") := by
  rfl

/-- The concrete claim-C5 witness input. -/
def T5 : Table :=
  ⟨[⟨"district", Dtype.obj, [Value.str "A", Value.str "B", Value.str "A"]⟩,
    ⟨"precio_noche", Dtype.numD, [Value.num 10, Value.num 50, Value.num 20]⟩]⟩

theorem claim_C5_witness :
    ∃ keys means,
      price_by_area T5 "district"
        = Except.ok ⟨[⟨"district", Dtype.obj, keys⟩, ⟨"precio_medio", Dtype.numD, means⟩]⟩ ∧
      keys.Nodup ∧
      (∀ v, v ∈ keys ↔ v ∈ (completePairs
        [Value.str "A", Value.str "B", Value.str "A"]
        [Value.num 10, Value.num 50, Value.num 20]).map Prod.fst) ∧
      means.length = keys.length ∧
      (∀ j, j < keys.length →
        means.getD j Value.missing
          = meanOfGroup (groupRows ((completePairs
              [Value.str "A", Value.str "B", Value.str "A"]
              [Value.num 10, Value.num 50, Value.num 20]).map Prod.fst)
              ((completePairs
                [Value.str "A", Value.str "B", Value.str "A"]
                [Value.num 10, Value.num 50, Value.num 20]).map Prod.snd)
              (keys.getD j Value.missing))) ∧
      List.Chain' (fun a b => Vge a b) means :=
  (claim_C5_amended T5 "district" (Or.inl rfl)).2
    ⟨"district", Dtype.obj, [Value.str "A", Value.str "B", Value.str "A"]⟩
    ⟨"precio_noche", Dtype.numD, [Value.num 10, Value.num 50, Value.num 20]⟩
    rfl rfl (by decide)

/-! ### Claim C1: merges never drop listing rows -/

/-- All columns of `t` have length `n` (a rectangular frame). -/
def AllColsLen (t : Table) (n : ℕ) : Prop :=
  ∀ c ∈ t.cols, c.vals.length = n

lemma wfb_allLen (t : Table) (h : WFb t = true) : AllColsLen t (nrows t) := by
  intro c hc
  unfold WFb at h
  rw [List.all_eq_true] at h
  simpa using h c hc

lemma allLen_keyLen (t : Table) (n : ℕ) (key : String) (kv : List Value)
    (hall : AllColsLen t n) (h : getColVals t key = some kv) : kv.length = n := by
  unfold getColVals at h
  cases hf : findCol t key with
  | none =>
    rw [hf] at h
    exact absurd h (by simp)
  | some c =>
    rw [hf] at h
    have hc : c ∈ t.cols := List.mem_of_find?_eq_some hf
    have hv : c.vals = kv := by simpa using h
    rw [← hv]
    exact hall c hc

lemma renameCol_cellAt (t : Table) (o n2 : String) (k j : ℕ) :
    cellAt (renameCol t o n2) k j = cellAt t k j := by
  unfold renameCol
  by_cases h : hasCol t o
  · rw [if_pos h]
    unfold cellAt
    by_cases hk : k < t.cols.length
    · rw [getD_map_lt _ _ k defaultCol defaultCol hk]
      by_cases hc : (t.cols.getD k defaultCol).name = o
      · rw [if_pos hc]
      · rw [if_neg hc]
    · rw [List.getD_eq_default
          (t.cols.map (fun c => if c.name = o then ⟨n2, c.dtype, c.vals⟩ else c)) defaultCol
          (by simpa using Nat.le_of_not_lt hk),
        List.getD_eq_default t.cols defaultCol (Nat.le_of_not_lt hk)]
  · rw [if_neg h]

lemma renameCol_colsLength (t : Table) (o n2 : String) :
    (renameCol t o n2).cols.length = t.cols.length := by
  unfold renameCol
  by_cases h : hasCol t o <;> simp [h]

lemma renameCol_allLen (t : Table) (o n2 : String) (n : ℕ) (h : AllColsLen t n) :
    AllColsLen (renameCol t o n2) n := by
  unfold renameCol
  by_cases hh : hasCol t o
  · rw [if_pos hh]
    intro c hc
    obtain ⟨c0, hc0, rfl⟩ := List.mem_map.mp hc
    by_cases hn : c0.name = o <;> simp [hn, h c0 hc0]
  · rw [if_neg hh]
    exact h

lemma blockLen_pos (p : ℕ × List ℕ) : 0 < blockLen p := by
  unfold blockLen
  omega

lemma bind_getD_offset {A B : Type} (st : List A) (f : A → List B) (g : A → ℕ)
    (hfg : ∀ a, (f a).length = g a) (hpos : ∀ a, 0 < g a) (d : B) (a0 : A) :
    ∀ i, i < st.length →
      (st.flatMap f).getD (((st.take i).map g).sum) d = (f (st.getD i a0)).getD 0 d := by
  induction st with
  | nil =>
    intro i hi
    simp at hi
  | cons a l ih =>
    intro i hi
    cases i with
    | zero =>
      show ((a :: l).flatMap f).getD 0 d = (f a).getD 0 d
      rw [List.flatMap_cons]
      exact getD_append_left _ _ 0 d (by rw [hfg]; exact hpos a)
    | succ i2 =>
      have hoff : (((a :: l).take (i2 + 1)).map g).sum
          = (f a).length + ((l.take i2).map g).sum := by
        rw [List.take_succ_cons, List.map_cons, List.sum_cons, hfg]
      rw [hoff, List.flatMap_cons, getD_append_offset]
      exact ih i2 (by simpa using hi)

/-- The output row index contributed by left row `i` (start of its block). -/
def offSt (st : List (ℕ × List ℕ)) (i : ℕ) : ℕ :=
  ((st.take i).map blockLen).sum

lemma mergeLeftColVals_length (st : List (ℕ × List ℕ)) (vals : List Value) :
    (mergeLeftColVals st vals).length = stTotal st := by
  unfold mergeLeftColVals stTotal
  rw [List.length_flatMap]
  congr 1
  apply List.map_congr_left
  intro a _
  simp

lemma mergeRightColVals_length (st : List (ℕ × List ℕ)) (vals : List Value) :
    (mergeRightColVals st vals).length = stTotal st := by
  unfold mergeRightColVals stTotal
  rw [List.length_flatMap]
  congr 1
  apply List.map_congr_left
  intro a _
  by_cases h : a.2.isEmpty
  · simp [h, blockLen, List.isEmpty_iff.mp h]
  · have hf : a.2.isEmpty = false := by simpa using h
    have hpos := List.length_pos.mpr (by simpa [List.isEmpty_iff] using h)
    show (if a.2.isEmpty = true then [Value.missing]
        else List.map (fun j => vals.getD j Value.missing) a.2).length = blockLen a
    rw [hf]
    simp [blockLen]
    omega

lemma replicate_getD_zero (n : ℕ) (x d : Value) (h : 0 < n) :
    (List.replicate n x).getD 0 d = x := by
  cases n with
  | zero => omega
  | succ m => rfl

lemma mergeLeftColVals_getD (st : List (ℕ × List ℕ)) (vals : List Value) (i : ℕ)
    (hi : i < st.length) :
    (mergeLeftColVals st vals).getD (offSt st i) Value.missing
      = vals.getD (st.getD i (0, [])).1 Value.missing := by
  unfold mergeLeftColVals offSt
  rw [bind_getD_offset st _ blockLen (fun a => by simp) blockLen_pos Value.missing (0, []) i hi]
  exact replicate_getD_zero _ _ _ (blockLen_pos _)

lemma offSt_lt (st : List (ℕ × List ℕ)) (i : ℕ) (hi : i < st.length) :
    offSt st i < stTotal st := by
  unfold offSt stTotal
  have h1 : (st.map blockLen).sum
      = ((st.take i).map blockLen).sum + ((st.drop i).map blockLen).sum := by
    conv_lhs => rw [← List.take_append_drop i st]
    rw [List.map_append, List.sum_append]
  rw [h1]
  have hd : st.drop i ≠ [] := by
    apply List.ne_nil_of_length_pos
    simp only [List.length_drop]
    omega
  cases hdrop : st.drop i with
  | nil => exact absurd hdrop hd
  | cons p l =>
    have hp := blockLen_pos p
    simp [hdrop]
    omega

lemma mergeStructure_length (lkv rkv : List Value) :
    (mergeStructure lkv rkv).length = lkv.length := by
  simp [mergeStructure]

lemma mergeStructure_fst (lkv rkv : List Value) (j : ℕ) (hj : j < lkv.length) :
    ((mergeStructure lkv rkv).getD j (0, [])).1 = j := by
  unfold mergeStructure
  rw [getD_map_lt (fun i => (i, matchIdxs (lkv.getD i Value.missing) rkv)) _ j 0 (0, [])
    (by simpa)]
  rw [List.getD_eq_getElem _ _ (by simpa : j < (List.range lkv.length).length)]
  simp

lemma merge_left_cellAt (leftCols rest : List Col) (com : List String) (suf : String)
    (st : List (ℕ × List ℕ)) (hst : ∀ j, j < st.length → (st.getD j (0, [])).1 = j)
    (i : ℕ) (hi : i < st.length) (k : ℕ) (hk : k < leftCols.length) :
    cellAt ⟨(leftCols.map (fun c => ⟨sfxName com suf c.name, c.dtype,
        mergeLeftColVals st c.vals⟩)) ++ rest⟩ k (offSt st i)
      = (leftCols.getD k defaultCol).vals.getD i Value.missing := by
  unfold cellAt
  rw [getD_append_left _ rest k defaultCol (by simpa using hk),
    getD_map_lt _ leftCols k defaultCol defaultCol hk]
  show (mergeLeftColVals st ((leftCols.getD k defaultCol).vals)).getD
      (offSt st i) Value.missing = _
  rw [mergeLeftColVals_getD st _ i hi, hst i hi]

lemma merge_lr_eq (left right : Table) (lk rk sl sr : String) (lc rc : Col)
    (hlc : findCol left lk = some lc) (hrc : findCol right rk = some rc)
    (hdt : lc.dtype = rc.dtype) :
    merge_lr left right lk rk sl sr
      = Except.ok ⟨(left.cols.map (fun c => ⟨sfxName (commonNames left right) sl c.name, c.dtype,
            mergeLeftColVals (mergeStructure lc.vals rc.vals) c.vals⟩))
          ++ (right.cols.map (fun c => ⟨sfxName (commonNames left right) sr c.name, c.dtype,
            mergeRightColVals (mergeStructure lc.vals rc.vals) c.vals⟩))⟩ := by
  unfold merge_lr
  rw [hlc, hrc]
  show (if lc.dtype = rc.dtype then
      Except.ok (⟨(left.cols.map (fun c => ⟨sfxName (commonNames left right) sl c.name, c.dtype,
            mergeLeftColVals (mergeStructure lc.vals rc.vals) c.vals⟩))
          ++ (right.cols.map (fun c => ⟨sfxName (commonNames left right) sr c.name, c.dtype,
            mergeRightColVals (mergeStructure lc.vals rc.vals) c.vals⟩))⟩ : Table)
    else Except.error (PyErr.valueError mergeErrMsg)) = _
  rw [if_pos hdt]

lemma merge_on_eq (left right : Table) (k sl sr : String) (lc rc : Col)
    (hlc : findCol left k = some lc) (hrc : findCol right k = some rc)
    (hdt : lc.dtype = rc.dtype) :
    merge_on left right k sl sr
      = Except.ok ⟨(left.cols.map (fun c =>
            ⟨sfxName ((commonNames left right).filter (fun n => n != k)) sl c.name, c.dtype,
              mergeLeftColVals (mergeStructure lc.vals rc.vals) c.vals⟩))
          ++ ((right.cols.filter (fun c => c.name != k)).map (fun c =>
            ⟨sfxName ((commonNames left right).filter (fun n => n != k)) sr c.name, c.dtype,
              mergeRightColVals (mergeStructure lc.vals rc.vals) c.vals⟩))⟩ := by
  unfold merge_on
  rw [hlc, hrc]
  show (if lc.dtype = rc.dtype then
      Except.ok (⟨(left.cols.map (fun c =>
            ⟨sfxName ((commonNames left right).filter (fun n => n != k)) sl c.name, c.dtype,
              mergeLeftColVals (mergeStructure lc.vals rc.vals) c.vals⟩))
          ++ ((right.cols.filter (fun c => c.name != k)).map (fun c =>
            ⟨sfxName ((commonNames left right).filter (fun n => n != k)) sr c.name, c.dtype,
              mergeRightColVals (mergeStructure lc.vals rc.vals) c.vals⟩))⟩ : Table)
    else Except.error (PyErr.valueError mergeErrMsg)) = _
  rw [if_pos hdt]

lemma mergedTable_allLen (leftCols rightCols : List Col) (com : List String)
    (sl sr : String) (st : List (ℕ × List ℕ)) :
    AllColsLen ⟨(leftCols.map (fun c => ⟨sfxName com sl c.name, c.dtype,
        mergeLeftColVals st c.vals⟩))
      ++ (rightCols.map (fun c => ⟨sfxName com sr c.name, c.dtype,
        mergeRightColVals st c.vals⟩))⟩ (stTotal st) := by
  intro c hc
  rcases List.mem_append.mp hc with h | h <;> obtain ⟨c0, _, rfl⟩ := List.mem_map.mp h
  · exact mergeLeftColVals_length st c0.vals
  · exact mergeRightColVals_length st c0.vals

lemma hasCol_getColVals (t : Table) (n : String) (h : hasCol t n = true) :
    ∃ vs, getColVals t n = some vs := by
  obtain ⟨c, hc⟩ := findCol_of_hasCol t n h
  exact ⟨c.vals, by simp [getColVals, hc]⟩

/-- One left-join step (`left_on`/`right_on` form): with both key columns
present and dtype-compatible the merge succeeds and every left row survives
with its cells intact. -/
lemma merge_lr_step (left right : Table) (lk rk sl sr : String) (n : ℕ)
    (hall : AllColsLen left n) (j1 : ℕ) (hj1 : j1 < n)
    (hkey : hasCol left lk = true) (hrkey : hasCol right rk = true)
    (hdt : ∀ lc rc, findCol left lk = some lc → findCol right rk = some rc →
      lc.dtype = rc.dtype) :
    ∃ out, merge_lr left right lk rk sl sr = Except.ok out ∧
      ∃ n2 j2, j2 < n2 ∧ AllColsLen out n2 ∧ left.cols.length ≤ out.cols.length ∧
        ∀ k, k < left.cols.length → cellAt out k j2 = cellAt left k j1 := by
  obtain ⟨lc, hlc⟩ := findCol_of_hasCol left lk hkey
  obtain ⟨rc, hrc⟩ := findCol_of_hasCol right rk hrkey
  have hlkv : getColVals left lk = some lc.vals := by
    simp [getColVals, hlc]
  have hlen : lc.vals.length = n := allLen_keyLen left n lk lc.vals hall hlkv
  have hst : j1 < (mergeStructure lc.vals rc.vals).length := by
    rw [mergeStructure_length]
    omega
  refine ⟨_, merge_lr_eq left right lk rk sl sr lc rc hlc hrc (hdt lc rc hlc hrc),
    stTotal (mergeStructure lc.vals rc.vals), offSt (mergeStructure lc.vals rc.vals) j1,
    offSt_lt _ j1 hst, mergedTable_allLen _ _ _ _ _ _, by simp, ?_⟩
  intro k hk
  rw [merge_left_cellAt left.cols _ _ _ _
    (fun j hj => mergeStructure_fst lc.vals rc.vals j (by rwa [mergeStructure_length] at hj))
    j1 hst k hk]
  unfold cellAt
  rfl

/-- One left-join step (`on` form): with both key columns present and
dtype-compatible the merge succeeds and every left row survives with its
cells intact. -/
lemma merge_on_step (left right : Table) (key sl sr : String) (n : ℕ)
    (hall : AllColsLen left n) (j1 : ℕ) (hj1 : j1 < n)
    (hkey : hasCol left key = true) (hrkey : hasCol right key = true)
    (hdt : ∀ lc rc, findCol left key = some lc → findCol right key = some rc →
      lc.dtype = rc.dtype) :
    ∃ out, merge_on left right key sl sr = Except.ok out ∧
      ∃ n2 j2, j2 < n2 ∧ AllColsLen out n2 ∧ left.cols.length ≤ out.cols.length ∧
        ∀ k, k < left.cols.length → cellAt out k j2 = cellAt left k j1 := by
  obtain ⟨lc, hlc⟩ := findCol_of_hasCol left key hkey
  obtain ⟨rc, hrc⟩ := findCol_of_hasCol right key hrkey
  have hlkv : getColVals left key = some lc.vals := by
    simp [getColVals, hlc]
  have hlen : lc.vals.length = n := allLen_keyLen left n key lc.vals hall hlkv
  have hst : j1 < (mergeStructure lc.vals rc.vals).length := by
    rw [mergeStructure_length]
    omega
  refine ⟨_, merge_on_eq left right key sl sr lc rc hlc hrc (hdt lc rc hlc hrc),
    stTotal (mergeStructure lc.vals rc.vals), offSt (mergeStructure lc.vals rc.vals) j1,
    offSt_lt _ j1 hst, ?_, by simp, ?_⟩
  · have h := mergedTable_allLen left.cols (right.cols.filter (fun c => c.name != key))
      ((commonNames left right).filter (fun n => n != key)) sl sr
      (mergeStructure lc.vals rc.vals)
    exact h
  · intro k hk
    rw [merge_left_cellAt left.cols _ _ _ _
      (fun j hj => mergeStructure_fst lc.vals rc.vals j (by rwa [mergeStructure_length] at hj))
      j1 hst k hk]
    unfold cellAt
    rfl

lemma prepare_ok_shape (R : Table) (h : ratingsOk R = true) :
    ∃ rs, prepare_reviews R = Except.ok rs ∧
      (rs.isEmpty = true ∨ hasCol rs "listing_id" = true) := by
  unfold prepare_reviews
  cases hk : findCol R "listing_id" with
  | none => exact ⟨emptyTable, rfl, Or.inl rfl⟩
  | some kc =>
    cases hm : findCol R "rating" with
    | none => exact ⟨emptyTable, rfl, Or.inl rfl⟩
    | some mc =>
      have hagg : aggOkVals mc.vals = true := by
        unfold ratingsOk getColVals at h
        rw [hm] at h
        simpa using h
      show ∃ rs, (if aggOkVals mc.vals = true then Except.ok (groupMeanTable kc mc "rating")
          else Except.error PyErr.typeError) = Except.ok rs ∧
        (rs.isEmpty = true ∨ hasCol rs "listing_id" = true)
      rw [if_pos hagg]
      refine ⟨_, rfl, Or.inr ?_⟩
      have hname := findCol_name R "listing_id" kc hk
      simp [groupMeanTable, hasCol, hname]

/-- `listings_norm` after the neighbourhood rename (the first intermediate
frame of `unify_data`). -/
def lnOf (L : Table) : Table := renameCol L "neighbourhood_cleansed" "neighbourhood"

/-- `neighbourhoods_norm` after the group rename. -/
def nnOf (N : Table) : Table := renameCol N "neighbourhood_group" "district"

/-- The review summary frame (`reviews_summary`), read off a successful run
of `_prepare_reviews`. -/
def rsOf (R : Table) : Table :=
  match prepare_reviews R with
  | Except.ok rs => rs
  | Except.error _ => emptyTable

/-- `listings_norm` after the (guarded) review merge, which may raise. -/
def ln2E (L rs : Table) : Except PyErr Table :=
  if !rs.isEmpty && hasCol (lnOf L) "id" then
    merge_lr (lnOf L) rs "id" "listing_id" "_x" "_y"
  else Except.ok (lnOf L)

/-- The frame produced by a successful review merge. -/
def ln2Of (L rs : Table) : Table :=
  match ln2E L rs with
  | Except.ok t => t
  | Except.error _ => emptyTable

/-- The final (guarded) neighbourhood merge, which may raise. -/
def ln3E (ln2 N : Table) : Except PyErr Table :=
  if hasCol ln2 "neighbourhood" && hasCol (nnOf N) "neighbourhood" then
    merge_on ln2 (nnOf N) "neighbourhood" "" "_ref"
  else Except.ok ln2

lemma unify_eq (L R N P rs ln2 : Table) (hrs : prepare_reviews R = Except.ok rs)
    (h2 : ln2E L rs = Except.ok ln2) :
    unify_data L R N P = ln3E ln2 N := by
  unfold unify_data
  rw [hrs]
  show (match ln2E L rs with
    | Except.error e => Except.error e
    | Except.ok t => ln3E t N) = ln3E ln2 N
  rw [h2]

/-- The dtype compatibility pandas checks on a pair of merge key columns
(vacuously true when either key column is absent: the merge is skipped by
the guards then). -/
def keysCompat (a : Table) (na : String) (b : Table) (nb : String) : Bool :=
  match findCol a na, findCol b nb with
  | some lc, some rc => lc.dtype == rc.dtype
  | _, _ => true

lemma keysCompat_spec (a : Table) (na : String) (b : Table) (nb : String)
    (h : keysCompat a na b nb = true) :
    ∀ lc rc, findCol a na = some lc → findCol b nb = some rc → lc.dtype = rc.dtype := by
  intro lc rc hlc hrc
  unfold keysCompat at h
  rw [hlc, hrc] at h
  have h2 : (lc.dtype == rc.dtype) = true := h
  simpa using h2

/-- Both (guarded) joins of `unify_data` see dtype-compatible key columns. -/
def unifyKeysOk (L R N : Table) : Bool :=
  keysCompat (lnOf L) "id" (rsOf R) "listing_id"
    && keysCompat (ln2Of L (rsOf R)) "neighbourhood" (nnOf N) "neighbourhood"

lemma step_lr (L rs : Table) (n : ℕ) (hall : AllColsLen (lnOf L) n) (j1 : ℕ)
    (hj1 : j1 < n) (hshape : rs.isEmpty = true ∨ hasCol rs "listing_id" = true)
    (hdt : ∀ lc rc, findCol (lnOf L) "id" = some lc →
      findCol rs "listing_id" = some rc → lc.dtype = rc.dtype) :
    ∃ ln2, ln2E L rs = Except.ok ln2 ∧
      ∃ n2 j2, j2 < n2 ∧ AllColsLen ln2 n2 ∧
        (lnOf L).cols.length ≤ ln2.cols.length ∧
        ∀ k, k < (lnOf L).cols.length → cellAt ln2 k j2 = cellAt (lnOf L) k j1 := by
  unfold ln2E
  by_cases hcond : (!rs.isEmpty && hasCol (lnOf L) "id") = true
  · rw [if_pos hcond]
    obtain ⟨h1, h2⟩ := Bool.and_eq_true_iff.mp hcond
    have hrk : hasCol rs "listing_id" = true := by
      rcases hshape with he | hh
      · rw [he] at h1
        simp at h1
      · exact hh
    exact merge_lr_step (lnOf L) rs "id" "listing_id" "_x" "_y" n hall j1 hj1 h2 hrk hdt
  · rw [if_neg hcond]
    exact ⟨lnOf L, rfl, n, j1, hj1, hall, le_refl _, fun k _ => rfl⟩

lemma step_on (ln2 N : Table) (n2 : ℕ) (hall : AllColsLen ln2 n2) (j2 : ℕ)
    (hj2 : j2 < n2)
    (hdt : ∀ lc rc, findCol ln2 "neighbourhood" = some lc →
      findCol (nnOf N) "neighbourhood" = some rc → lc.dtype = rc.dtype) :
    ∃ out, ln3E ln2 N = Except.ok out ∧
      ∃ n3 j3, j3 < n3 ∧ AllColsLen out n3 ∧
        ln2.cols.length ≤ out.cols.length ∧
        ∀ k, k < ln2.cols.length → cellAt out k j3 = cellAt ln2 k j2 := by
  unfold ln3E
  by_cases hcond : (hasCol ln2 "neighbourhood" && hasCol (nnOf N) "neighbourhood") = true
  · rw [if_pos hcond]
    obtain ⟨h1, h2⟩ := Bool.and_eq_true_iff.mp hcond
    exact merge_on_step ln2 (nnOf N) "neighbourhood" "" "_ref" n2 hall j2 hj2 h1 h2 hdt
  · rw [if_neg hcond]
    exact ⟨ln2, rfl, n2, j2, hj2, hall, le_refl _, fun k _ => rfl⟩

/-- The concrete claim-C1 listings frame: one listing with a numeric id. -/
def L1w : Table := ⟨[⟨"id", Dtype.numD, [Value.num 1]⟩]⟩

/-- A reviews frame whose listing_id column is string-typed (as `read_csv`
leaves it when the ids are non-numeric text), with one numeric rating. -/
def R1cx : Table :=
  ⟨[⟨"listing_id", Dtype.obj, [Value.str "1"]⟩,
    ⟨"rating", Dtype.numD, [Value.num 4]⟩]⟩

/-- Claim C1, counterexample: the claim says every listings row appears in
the output of `unify_data` for every input, but merging the numeric-id
listings frame with a review summary whose `listing_id` key column is
string-typed makes pandas `merge` raise `ValueError`, so `unify_data` raises
instead of returning a frame containing the listing row. -/
theorem claim_C1_counterexample :
    unify_data L1w R1cx emptyTable emptyTable
      = Except.error (PyErr.valueError mergeErrMsg) := rfl

/-- Claim C1, amended: for all listings, reviews, neighbourhoods and
price-reference tables — listings rectangular, ratings numeric-or-missing as
the data model prescribes, and the key columns of each (guarded) join
dtype-compatible, since pandas `merge` raises `ValueError` on a numeric vs
string-like key-dtype mismatch — `unify_data` succeeds and every row of the
listings table appears in the result with its original column values
(positionally: the first `L.cols.length` cells of some output row are
exactly that listing row).  The two left joins may pad with missing values
but never drop a listing row. -/
theorem claim_C1_amended (L R N P : Table) (hwf : WFb L = true)
    (hr : ratingsOk R = true) (hkeys : unifyKeysOk L R N = true)
    (i : ℕ) (hi : i < nrows L) :
    ∃ out, unify_data L R N P = Except.ok out ∧
      ∃ j, ∀ k, k < L.cols.length → cellAt out k j = cellAt L k i := by
  obtain ⟨rs, hrs, hshape⟩ := prepare_ok_shape R hr
  have hrsOf : rsOf R = rs := by
    unfold rsOf
    rw [hrs]
  unfold unifyKeysOk at hkeys
  obtain ⟨hkc1, hkc2⟩ := Bool.and_eq_true_iff.mp hkeys
  rw [hrsOf] at hkc1 hkc2
  have hallL : AllColsLen (lnOf L) (nrows L) :=
    renameCol_allLen L _ _ _ (wfb_allLen L hwf)
  obtain ⟨ln2, h2, n2, j2, hj2, hall2, hle2, hcell2⟩ :=
    step_lr L rs (nrows L) hallL i hi hshape (keysCompat_spec _ _ _ _ hkc1)
  have hln2 : ln2Of L rs = ln2 := by
    unfold ln2Of
    rw [h2]
  rw [hln2] at hkc2
  obtain ⟨out, h3, n3, j3, hj3, hall3, hle3, hcell3⟩ :=
    step_on ln2 N n2 hall2 j2 hj2 (keysCompat_spec _ _ _ _ hkc2)
  refine ⟨out, ?_, j3, fun k hk => ?_⟩
  · rw [unify_eq L R N P rs ln2 hrs h2]
    exact h3
  · have hlenL : (lnOf L).cols.length = L.cols.length := renameCol_colsLength L _ _
    have hkA : k < (lnOf L).cols.length := by
      rw [hlenL]
      exact hk
    have hkB : k < ln2.cols.length := lt_of_lt_of_le hkA hle2
    calc cellAt out k j3 = cellAt ln2 k j2 := hcell3 k hkB
      _ = cellAt (lnOf L) k i := hcell2 k hkA
      _ = cellAt L k i := renameCol_cellAt L _ _ k i

/-- Witness: the amended hypotheses hold of the concrete one-listing input
with no reviews, and its listing row survives `unify_data`. -/
theorem claim_C1_witness :
    (WFb L1w = true ∧ ratingsOk emptyTable = true ∧
      unifyKeysOk L1w emptyTable emptyTable = true ∧ 0 < nrows L1w) ∧
    ∃ out, unify_data L1w emptyTable emptyTable emptyTable = Except.ok out ∧
      ∃ j, ∀ k, k < L1w.cols.length → cellAt out k j = cellAt L1w k 0 :=
  ⟨⟨by decide, by decide, by decide, by decide⟩,
    claim_C1_amended L1w emptyTable emptyTable emptyTable (by decide) (by decide)
      (by decide) 0 (by decide)⟩

/-! ### Claim C9: pipeline stages do not mutate their input frame

Python DataFrames are heap objects.  We model a heap as a list of frames
addressed by index; `df.copy()` allocates a fresh slot and each in-place
column assignment is a store to the slot being built.  Each stage below
follows the source line by line: copy first, then assign only to the copy. -/

abbrev Heap : Type := List Table

def heapGet (h : Heap) (i : ℕ) : Table := List.getD h i emptyTable

/-- `standardize_prices`: `cleaned = df.copy()`, then one column store per
candidate column (source lines 9–19). -/
def standardizeProg (h : Heap) (df : ℕ) : Heap × ℕ :=
  (priceCandidates.foldl
    (fun hh col => hh.set (List.length h) (setPriceCol (heapGet hh (List.length h)) col))
    (h ++ [heapGet h df]),
   List.length h)

/-- The body of the `normalize_types` loop for the column named `n`. -/
def normStepName (t : Table) (n : String) : Table :=
  ⟨t.cols.map (fun c => if c.name = n then normalizeColStep c else c)⟩

/-- `normalize_types`: `normalized = df.copy()`, then one store per column
name of the snapshot taken at loop entry (source lines 24–29). -/
def normalizeProg (h : Heap) (df : ℕ) : Heap × ℕ :=
  (((heapGet h df).cols.map Col.name).foldl
    (fun hh col => hh.set (List.length h) (normStepName (heapGet hh (List.length h)) col))
    (h ++ [heapGet h df]),
   List.length h)

/-- `add_basic_columns`: `enriched = df.copy()`, then the two conditional
derived-column stores (source lines 34–40). -/
def addBasicProg (h : Heap) (df : ℕ) : Heap × ℕ :=
  ((fun h2 => h2.set (List.length h) (addOcup (heapGet h2 (List.length h))))
    ((h ++ [heapGet h df]).set (List.length h)
      (addPrecio (heapGet (h ++ [heapGet h df]) (List.length h)))),
   List.length h)

/-- `cleaned.drop_duplicates()` builds a fresh frame; the rebinding of
`cleaned` points at the new allocation (source line 48). -/
def dedupProg (h : Heap) (df : ℕ) : Heap × ℕ :=
  (h ++ [drop_duplicates (heapGet h df)], List.length h)

/-- `clean_dataset`: the four stages chained, each reading the previous
stage's output object (source lines 44–49). -/
def cleanProg (h : Heap) (df : ℕ) : Heap × ℕ :=
  dedupProg (addBasicProg (normalizeProg (standardizeProg h df).1
    (standardizeProg h df).2).1 (normalizeProg (standardizeProg h df).1
    (standardizeProg h df).2).2).1 (addBasicProg (normalizeProg (standardizeProg h df).1
    (standardizeProg h df).2).1 (normalizeProg (standardizeProg h df).1
    (standardizeProg h df).2).2).2

lemma getD_set_ne (h : Heap) (i j : ℕ) (t : Table) (hne : j ≠ i) :
    (h.set i t).getD j emptyTable = h.getD j emptyTable := by
  by_cases hj : j < h.length
  · rw [List.getD_eq_getElem _ _ (by simpa using hj), List.getD_eq_getElem _ _ hj]
    exact List.getElem_set_ne (Ne.symm hne) _
  · rw [List.getD_eq_default _ _ (by simpa using Nat.le_of_not_lt hj),
      List.getD_eq_default _ _ (Nat.le_of_not_lt hj)]

lemma foldl_set_getD {α : Type} (l : List α) (f : Table → α → Table) (cid j : ℕ)
    (hne : j ≠ cid) :
    ∀ h : Heap,
      (l.foldl (fun hh a => hh.set cid (f (heapGet hh cid) a)) h).getD j emptyTable
        = h.getD j emptyTable := by
  induction l with
  | nil => intro h; rfl
  | cons a l ih =>
    intro h
    rw [List.foldl_cons, ih]
    exact getD_set_ne h cid j _ hne

lemma foldl_set_length {α : Type} (l : List α) (f : Table → α → Table) (cid : ℕ) :
    ∀ h : Heap,
      (l.foldl (fun hh a => hh.set cid (f (heapGet hh cid) a)) h).length = h.length := by
  induction l with
  | nil => intro h; rfl
  | cons a l ih =>
    intro h
    rw [List.foldl_cons, ih, List.length_set]

lemma standardizeProg_getD (h : Heap) (df j : ℕ) (hj : j < h.length) :
    (standardizeProg h df).1.getD j emptyTable = h.getD j emptyTable := by
  unfold standardizeProg
  rw [foldl_set_getD _ _ _ j (by omega)]
  exact getD_append_left h _ j emptyTable hj

lemma standardizeProg_length (h : Heap) (df : ℕ) :
    (standardizeProg h df).1.length = h.length + 1 := by
  unfold standardizeProg
  rw [foldl_set_length]
  simp

lemma normalizeProg_getD (h : Heap) (df j : ℕ) (hj : j < h.length) :
    (normalizeProg h df).1.getD j emptyTable = h.getD j emptyTable := by
  unfold normalizeProg
  rw [foldl_set_getD _ _ _ j (by omega)]
  exact getD_append_left h _ j emptyTable hj

lemma normalizeProg_length (h : Heap) (df : ℕ) :
    (normalizeProg h df).1.length = h.length + 1 := by
  unfold normalizeProg
  rw [foldl_set_length]
  simp

lemma addBasicProg_getD (h : Heap) (df j : ℕ) (hj : j < h.length) :
    (addBasicProg h df).1.getD j emptyTable = h.getD j emptyTable := by
  unfold addBasicProg
  rw [getD_set_ne _ _ _ _ (by omega), getD_set_ne _ _ _ _ (by omega)]
  exact getD_append_left h _ j emptyTable hj

lemma addBasicProg_length (h : Heap) (df : ℕ) :
    (addBasicProg h df).1.length = h.length + 1 := by
  unfold addBasicProg
  simp

lemma dedupProg_getD (h : Heap) (df j : ℕ) (hj : j < h.length) :
    (dedupProg h df).1.getD j emptyTable = h.getD j emptyTable :=
  getD_append_left h _ j emptyTable hj

/-- Claim C9: every stage of the cleaning pipeline — `standardize_prices`,
`normalize_types`, `add_basic_columns`, the dedup step, and the whole
`clean_dataset` — leaves every pre-existing heap object (in particular its
input frame) unchanged: all mutation happens on the fresh copy. -/
theorem claim_C9 (h : Heap) (df j : ℕ) (hdf : df < List.length h)
    (hj : j < List.length h) :
    (standardizeProg h df).1.getD j emptyTable = h.getD j emptyTable ∧
    (normalizeProg h df).1.getD j emptyTable = h.getD j emptyTable ∧
    (addBasicProg h df).1.getD j emptyTable = h.getD j emptyTable ∧
    (dedupProg h df).1.getD j emptyTable = h.getD j emptyTable ∧
    (cleanProg h df).1.getD j emptyTable = h.getD j emptyTable := by
  refine ⟨standardizeProg_getD h df j hj, normalizeProg_getD h df j hj,
    addBasicProg_getD h df j hj, dedupProg_getD h df j hj, ?_⟩
  unfold cleanProg
  rw [dedupProg_getD _ _ j (by rw [addBasicProg_length, normalizeProg_length,
      standardizeProg_length]; omega),
    addBasicProg_getD _ _ j (by rw [normalizeProg_length, standardizeProg_length]; omega),
    normalizeProg_getD _ _ j (by rw [standardizeProg_length]; omega),
    standardizeProg_getD _ _ j hj]

/-- The concrete claim-C9 witness heap: one frame at address 0. -/
def Tw9 : Table := ⟨[⟨"price", Dtype.obj, [Value.str "5"]⟩]⟩

theorem claim_C9_witness :
    (standardizeProg [Tw9] 0).1.getD 0 emptyTable = Tw9 ∧
    (cleanProg [Tw9] 0).1.getD 0 emptyTable = Tw9 := by
  have h := claim_C9 [Tw9] 0 0 (by decide) (by decide)
  exact ⟨h.1, h.2.2.2.2⟩

/-! ### Claim C3: idempotence of `clean_dataset`

Strategy: after one pass every column is in a stable form — price-candidate
columns are numeric, date-named columns are datetime, remaining `object`
columns failed numeric parsing (and still fail after dedup, because a
dropped duplicate row leaves an identical surviving row), derived columns
agree with their recomputation, and rows are distinct — and each stage is
the identity on tables in stable form. -/

def DateOrMissing : Value → Bool
  | Value.missing => true
  | Value.date _ => true
  | _ => false

lemma coerceCell_nm (v : Value) : NumOrMissing (coerceCell v) = true := by
  cases v with
  | missing => rfl
  | num q => rfl
  | date d => rfl
  | str s =>
    show NumOrMissing (match parseNumQ s with
      | some q => Value.num q
      | none => Value.missing) = true
    cases parseNumQ s <;> rfl

lemma cleanPriceCell_nm (v : Value) : NumOrMissing (cleanPriceCell v) = true := by
  cases v with
  | missing => rfl
  | num q => rfl
  | date d => rfl
  | str s => exact coerceCell_nm (Value.str (stripPriceStr s))

lemma toDatetimeCell_dm (v : Value) : DateOrMissing (toDatetimeCell v) = true := by
  cases v with
  | missing => rfl
  | num q => rfl
  | date d => rfl
  | str s =>
    show DateOrMissing (match parseDateStr s with
      | some d => Value.date d
      | none => Value.missing) = true
    cases parseDateStr s <;> rfl

lemma cleanPriceCell_id (v : Value) (h : NumOrMissing v = true) : cleanPriceCell v = v := by
  cases v with
  | missing => rfl
  | num q => rfl
  | date d => simp [NumOrMissing] at h
  | str s => simp [NumOrMissing] at h

lemma toDatetimeCell_id (v : Value) (h : DateOrMissing v = true) : toDatetimeCell v = v := by
  cases v with
  | missing => rfl
  | date d => rfl
  | num q => simp [DateOrMissing] at h
  | str s => simp [DateOrMissing] at h

lemma coerceCell_id (v : Value) (h : NumOrMissing v = true) : coerceCell v = v := by
  cases v with
  | missing => rfl
  | num q => rfl
  | date d => simp [NumOrMissing] at h
  | str s => simp [NumOrMissing] at h

lemma map_id_of_all (P : Value → Bool) (f : Value → Value)
    (hf : ∀ v, P v = true → f v = v) :
    ∀ l : List Value, l.all P = true → l.map f = l := by
  intro l hl
  rw [List.all_eq_true] at hl
  calc l.map f = l.map id := List.map_congr_left (fun v hv => hf v (hl v hv))
    _ = l := List.map_id l

lemma all_map_of (P : Value → Bool) (f : Value → Value) (h : ∀ v, P (f v) = true)
    (l : List Value) : (l.map f).all P = true := by
  rw [List.all_eq_true]
  intro v hv
  obtain ⟨v0, _, rfl⟩ := List.mem_map.mp hv
  exact h v0

lemma getD_map_mpres (f : Value → Value) (hf : f Value.missing = Value.missing)
    (l : List Value) (i : ℕ) :
    (l.map f).getD i Value.missing = f (l.getD i Value.missing) := by
  by_cases hi : i < l.length
  · exact getD_map_lt f l i Value.missing Value.missing hi
  · rw [List.getD_eq_default _ _ (by simpa using Nat.le_of_not_lt hi),
      List.getD_eq_default _ _ (Nat.le_of_not_lt hi), hf]

/-- The per-column effect of the whole `standardize_prices` call. -/
def stepAll (c : Col) : Col :=
  if c.name ∈ priceCandidates then priceColUpdate c else c

lemma setPriceCol_cols (u : Table) (n : String) :
    (setPriceCol u n).cols
      = u.cols.map (fun c => if c.name = n then priceColUpdate c else c) := by
  unfold setPriceCol
  by_cases h : hasCol u n
  · rw [if_pos h]
  · rw [if_neg h]
    have hno : ∀ c ∈ u.cols, ¬(c.name = n) := by
      intro c hc hn
      apply h
      unfold hasCol
      rw [List.any_eq_true]
      exact ⟨c, hc, by simpa using hn⟩
    symm
    calc u.cols.map (fun c => if c.name = n then priceColUpdate c else c)
        = u.cols.map id := List.map_congr_left (fun c hc => by rw [if_neg (hno c hc)]; rfl)
      _ = u.cols := List.map_id u.cols

lemma priceColUpdate_name (c : Col) : (priceColUpdate c).name = c.name := rfl

lemma standardize_cols (t : Table) :
    (standardize_prices t).cols = t.cols.map stepAll := by
  show (setPriceCol (setPriceCol (setPriceCol (setPriceCol t "price")
      "price_per_night") "precio") "price_m2").cols = _
  rw [setPriceCol_cols, setPriceCol_cols, setPriceCol_cols, setPriceCol_cols,
    List.map_map, List.map_map, List.map_map]
  apply List.map_congr_left
  intro c _
  by_cases h1 : c.name = "price"
  · simp [stepAll, priceCandidates, h1, priceColUpdate]
  · by_cases h2 : c.name = "price_per_night"
    · simp [stepAll, priceCandidates, h1, h2, priceColUpdate]
    · by_cases h3 : c.name = "precio"
      · simp [stepAll, priceCandidates, h1, h2, h3, priceColUpdate]
      · by_cases h4 : c.name = "price_m2"
        · simp [stepAll, priceCandidates, h1, h2, h3, h4, priceColUpdate]
        · simp [stepAll, priceCandidates, h1, h2, h3, h4]

/-! #### Stable-table invariants -/

/-- Price-candidate columns are numeric with numeric-or-missing cells. -/
def StdInv (u : Table) : Prop :=
  ∀ c ∈ u.cols, c.name ∈ priceCandidates →
    c.dtype = Dtype.numD ∧ c.vals.all NumOrMissing = true

/-- Date-named columns are datetime with date-or-missing cells. -/
def DateInv (u : Table) : Prop :=
  ∀ c ∈ u.cols, dateNamed c.name = true →
    c.dtype = Dtype.dateD ∧ c.vals.all DateOrMissing = true

/-- Surviving `object` columns are those whose numeric parse fails. -/
def ObjInv (u : Table) : Prop :=
  ∀ c ∈ u.cols, dateNamed c.name = false → c.dtype = Dtype.obj →
    c.vals.all numericParseable = false

/-- The derived `precio_noche` column agrees with its recomputation. -/
def PrecioInv (u : Table) : Prop :=
  ∀ pc, findCol u "price" = some pc →
    hasCol u "precio_noche" = true ∧
    ∀ c ∈ u.cols, c.name = "precio_noche" →
      c = ⟨"precio_noche", Dtype.numD, pc.vals.map coerceCell⟩

/-- The derived `ocupacion_estimada` column agrees with its recomputation. -/
def OcupInv (u : Table) : Prop :=
  ∀ ac, findCol u "availability_365" = some ac →
    hasCol u "ocupacion_estimada" = true ∧
    ∀ c ∈ u.cols, c.name = "ocupacion_estimada" →
      c = ⟨"ocupacion_estimada", Dtype.numD,
        ac.vals.map (fun v => sub365Cell (coerceCell v))⟩

/-- All rows pairwise distinct (what `drop_duplicates` establishes). -/
def NodupRows (u : Table) : Prop :=
  ∀ i, i < nrows u → ∀ j, j < i → rowAt u j ≠ rowAt u i

/-! #### Each stage is the identity on stable tables -/

lemma foldl_fixed {α : Type} (g : Table → α → Table) (u : Table) (l : List α)
    (h : ∀ a ∈ l, g u a = u) : l.foldl g u = u := by
  induction l with
  | nil => rfl
  | cons a l ih =>
    rw [List.foldl_cons, h a (by simp)]
    exact ih (fun a2 ha2 => h a2 (by simp [ha2]))

lemma map_id_cols (l : List Col) (f : Col → Col) (h : ∀ c ∈ l, f c = c) :
    l.map f = l := by
  calc l.map f = l.map id := List.map_congr_left h
    _ = l := List.map_id l

lemma stage1_id (u : Table) (hB : StdInv u) : standardize_prices u = u := by
  unfold standardize_prices
  apply foldl_fixed
  intro n hn
  unfold setPriceCol
  by_cases h : hasCol u n
  · rw [if_pos h]
    obtain ⟨cols⟩ := u
    show Table.mk _ = Table.mk cols
    congr 1
    apply map_id_cols
    intro c hc
    by_cases hcn : c.name = n
    · rw [if_pos hcn]
      obtain ⟨hdt, hall⟩ := hB c hc (by rw [hcn]; exact hn)
      unfold priceColUpdate
      rw [map_id_of_all NumOrMissing cleanPriceCell cleanPriceCell_id c.vals hall, ← hdt]
    · rw [if_neg hcn]
  · rw [if_neg h]

lemma normalizeColStep_id (c : Col) (hC : dateNamed c.name = true →
      c.dtype = Dtype.dateD ∧ c.vals.all DateOrMissing = true)
    (hD : dateNamed c.name = false → c.dtype = Dtype.obj →
      c.vals.all numericParseable = false) :
    normalizeColStep c = c := by
  by_cases hd : dateNamed c.name = true
  · obtain ⟨hdt, hall⟩ := hC hd
    unfold normalizeColStep
    rw [if_pos hd, map_id_of_all DateOrMissing toDatetimeCell toDatetimeCell_id c.vals hall]
    show (if (Dtype.dateD = Dtype.obj) then _ else _) = c
    rw [if_neg (by simp)]
    rw [← hdt]
  · have hdf : dateNamed c.name = false := by simpa using hd
    unfold normalizeColStep
    rw [if_neg hd]
    by_cases ho : c.dtype = Dtype.obj
    · rw [if_pos ho, if_neg (by rw [hD hdf ho]; simp)]
    · rw [if_neg ho]

lemma stage2_id (u : Table) (hC : DateInv u) (hO : ObjInv u) : normalize_types u = u := by
  unfold normalize_types
  obtain ⟨cols⟩ := u
  show Table.mk _ = Table.mk cols
  congr 1
  apply map_id_cols
  intro c hc
  exact normalizeColStep_id c (hC c hc) (fun h1 h2 => hO c hc h1 h2)

lemma upsert_id (u : Table) (c : Col) (hhas : hasCol u c.name = true)
    (hall : ∀ c0 ∈ u.cols, c0.name = c.name → c0 = c) : upsertCol u c = u := by
  unfold upsertCol
  rw [if_pos hhas]
  obtain ⟨cols⟩ := u
  show Table.mk _ = Table.mk cols
  congr 1
  apply map_id_cols
  intro c0 hc0
  by_cases hn : c0.name = c.name
  · rw [if_pos hn, hall c0 hc0 hn]
  · rw [if_neg hn]

lemma stage3_id (u : Table) (hE : PrecioInv u) (hF : OcupInv u) :
    add_basic_columns u = u := by
  unfold add_basic_columns
  have h1 : addPrecio u = u := by
    unfold addPrecio
    cases hp : findCol u "price" with
    | none => rfl
    | some pc =>
      obtain ⟨hhas, hall⟩ := hE pc hp
      exact upsert_id u _ hhas (fun c0 hc0 hn => hall c0 hc0 hn)
  rw [h1]
  unfold addOcup
  cases ha : findCol u "availability_365" with
  | none => rfl
  | some ac =>
    obtain ⟨hhas, hall⟩ := hF ac ha
    exact upsert_id u _ hhas (fun c0 hc0 hn => hall c0 hc0 hn)

lemma stage4_id (u : Table) (hwf : AllColsLen u (nrows u)) (hnd : NodupRows u) :
    drop_duplicates u = u := by
  have hkept : keptIdxs u = List.range (nrows u) := by
    unfold keptIdxs
    apply List.filter_eq_self.mpr
    intro i hi
    have hi2 := List.mem_range.mp hi
    rw [List.all_eq_true]
    intro j hj
    have hj2 := List.mem_range.mp hj
    simpa using hnd i hi2 j hj2
  unfold drop_duplicates
  rw [hkept]
  obtain ⟨cols⟩ := u
  show Table.mk _ = Table.mk cols
  congr 1
  apply map_id_cols
  intro c hc
  have hlen : c.vals.length = nrows ⟨cols⟩ := hwf c hc
  rw [← hlen, range_map_getD c.vals Value.missing]

/-! #### Establishing the invariants after one cleaning pass -/

lemma stepAll_name (c : Col) : (stepAll c).name = c.name := by
  unfold stepAll
  by_cases h : c.name ∈ priceCandidates
  · rw [if_pos h]
    rfl
  · rw [if_neg h]

lemma stepAll_len (c : Col) : (stepAll c).vals.length = c.vals.length := by
  unfold stepAll
  by_cases h : c.name ∈ priceCandidates
  · rw [if_pos h]
    simp [priceColUpdate]
  · rw [if_neg h]

lemma normalizeColStep_date (c : Col) (hd : dateNamed c.name = true) :
    normalizeColStep c = ⟨c.name, Dtype.dateD, c.vals.map toDatetimeCell⟩ := by
  simp only [normalizeColStep]
  rw [show (if dateNamed c.name = true then
        (⟨c.name, Dtype.dateD, c.vals.map toDatetimeCell⟩ : Col) else c)
      = ⟨c.name, Dtype.dateD, c.vals.map toDatetimeCell⟩ from if_pos hd]
  rw [if_neg (show ¬((⟨c.name, Dtype.dateD, c.vals.map toDatetimeCell⟩ : Col).dtype
      = Dtype.obj) from by simp)]

lemma normalizeColStep_name (c : Col) : (normalizeColStep c).name = c.name := by
  by_cases hd : dateNamed c.name = true
  · rw [normalizeColStep_date c hd]
  · have hdf : dateNamed c.name = false := by simpa using hd
    by_cases ho : c.dtype = Dtype.obj
    · rw [normalizeColStep_obj c hdf ho]
      by_cases ha : c.vals.all numericParseable = true
      · rw [if_pos ha]
      · rw [if_neg ha]
    · rw [normalizeColStep_id c (fun h2 => absurd h2 (by simp [hdf]))
        (fun _ h2 => absurd h2 ho)]

lemma normalizeColStep_len (c : Col) : (normalizeColStep c).vals.length = c.vals.length := by
  by_cases hd : dateNamed c.name = true
  · rw [normalizeColStep_date c hd]
    simp
  · have hdf : dateNamed c.name = false := by simpa using hd
    by_cases ho : c.dtype = Dtype.obj
    · rw [normalizeColStep_obj c hdf ho]
      by_cases ha : c.vals.all numericParseable = true
      · rw [if_pos ha]
        simp
      · rw [if_neg ha]
    · rw [normalizeColStep_id c (fun h2 => absurd h2 (by simp [hdf]))
        (fun _ h2 => absurd h2 ho)]

lemma candidates_not_dateNamed : ∀ s ∈ priceCandidates, dateNamed s = false := by decide

lemma standardize_allLen (t : Table) (n : ℕ) (h : AllColsLen t n) :
    AllColsLen (standardize_prices t) n := by
  intro c hc
  rw [standardize_cols] at hc
  obtain ⟨c0, hc0, rfl⟩ := List.mem_map.mp hc
  rw [stepAll_len]
  exact h c0 hc0

lemma normalize_allLen (u : Table) (n : ℕ) (h : AllColsLen u n) :
    AllColsLen (normalize_types u) n := by
  intro c hc
  obtain ⟨c0, hc0, rfl⟩ := List.mem_map.mp hc
  rw [normalizeColStep_len]
  exact h c0 hc0

lemma upsert_allLen (u : Table) (c : Col) (n : ℕ) (h : AllColsLen u n)
    (hc : c.vals.length = n) : AllColsLen (upsertCol u c) n := by
  intro c0 hc0
  unfold upsertCol at hc0
  by_cases hh : hasCol u c.name
  · rw [if_pos hh] at hc0
    obtain ⟨x, hx, rfl⟩ := List.mem_map.mp hc0
    by_cases hn : x.name = c.name
    · rw [if_pos hn]
      exact hc
    · rw [if_neg hn]
      exact h x hx
  · rw [if_neg hh] at hc0
    rcases List.mem_append.mp hc0 with hx | hx
    · exact h c0 hx
    · have : c0 = c := by simpa using hx
      rw [this]
      exact hc

lemma addBasic_allLen (u : Table) (n : ℕ) (h : AllColsLen u n) :
    AllColsLen (add_basic_columns u) n := by
  unfold add_basic_columns
  have h1 : AllColsLen (addPrecio u) n := by
    unfold addPrecio
    cases hp : findCol u "price" with
    | none => exact h
    | some pc =>
      apply upsert_allLen u _ n h
      have hmem : pc ∈ u.cols := List.mem_of_find?_eq_some hp
      simp [h pc hmem]
  unfold addOcup
  cases ha : findCol (addPrecio u) "availability_365" with
  | none => exact h1
  | some ac =>
    apply upsert_allLen _ _ n h1
    have hmem : ac ∈ (addPrecio u).cols := List.mem_of_find?_eq_some ha
    simp [h1 ac hmem]

lemma allLen_nrows (u : Table) (n : ℕ) (h : AllColsLen u n) :
    AllColsLen u (nrows u) := by
  intro c hc
  cases hcols : u.cols with
  | nil =>
    rw [hcols] at hc
    simp at hc
  | cons c0 rest =>
    have h0 : c0 ∈ u.cols := by
      rw [hcols]
      simp
    have hn : nrows u = n := by
      unfold nrows
      rw [hcols]
      exact h c0 h0
    rw [hn]
    exact h c hc

lemma upsert_mem (u : Table) (c c0 : Col) (h : c0 ∈ (upsertCol u c).cols) :
    c0 = c ∨ c0 ∈ u.cols := by
  unfold upsertCol at h
  by_cases hh : hasCol u c.name
  · rw [if_pos hh] at h
    obtain ⟨x, hx, rfl⟩ := List.mem_map.mp h
    by_cases hn : x.name = c.name
    · rw [if_pos hn]
      exact Or.inl rfl
    · rw [if_neg hn]
      exact Or.inr hx
  · rw [if_neg hh] at h
    rcases List.mem_append.mp h with hx | hx
    · exact Or.inr hx
    · exact Or.inl (by simpa using hx)

lemma mem_addPrecio (u : Table) (c0 : Col) (h : c0 ∈ (addPrecio u).cols) :
    c0 ∈ u.cols ∨ (c0.name = "precio_noche" ∧ c0.dtype = Dtype.numD) := by
  unfold addPrecio at h
  cases hp : findCol u "price" with
  | none =>
    rw [hp] at h
    exact Or.inl h
  | some pc =>
    rw [hp] at h
    rcases upsert_mem _ _ _ h with heq | hm
    · rw [heq]
      exact Or.inr ⟨rfl, rfl⟩
    · exact Or.inl hm

lemma mem_addBasic (u : Table) (c0 : Col) (h : c0 ∈ (add_basic_columns u).cols) :
    c0 ∈ u.cols ∨
      ((c0.name = "precio_noche" ∨ c0.name = "ocupacion_estimada") ∧
        c0.dtype = Dtype.numD) := by
  unfold add_basic_columns addOcup at h
  rcases hsplit : findCol (addPrecio u) "availability_365" with _ | ac
  · rw [hsplit] at h
    rcases mem_addPrecio u c0 h with hm | hm
    · exact Or.inl hm
    · exact Or.inr ⟨Or.inl hm.1, hm.2⟩
  · rw [hsplit] at h
    rcases upsert_mem _ _ _ h with heq | hm
    · rw [heq]
      exact Or.inr ⟨Or.inr rfl, rfl⟩
    · rcases mem_addPrecio u c0 hm with hm2 | hm2
      · exact Or.inl hm2
      · exact Or.inr ⟨Or.inl hm2.1, hm2.2⟩

/-! #### StdInv, DateInv, ObjInv through the stages -/

lemma stdInv_standardize (t : Table) : StdInv (standardize_prices t) := by
  intro c hc hcand
  rw [standardize_cols] at hc
  obtain ⟨c0, hc0, rfl⟩ := List.mem_map.mp hc
  rw [stepAll_name] at hcand
  unfold stepAll
  rw [if_pos hcand]
  exact ⟨rfl, all_map_of NumOrMissing cleanPriceCell cleanPriceCell_nm c0.vals⟩

lemma stdInv_normalize (u : Table) (h : StdInv u) : StdInv (normalize_types u) := by
  intro c hc hcand
  obtain ⟨c0, hc0, rfl⟩ := List.mem_map.mp hc
  rw [normalizeColStep_name] at hcand
  obtain ⟨hdt, hall⟩ := h c0 hc0 hcand
  have hid : normalizeColStep c0 = c0 := by
    apply normalizeColStep_id
    · intro hd
      rw [candidates_not_dateNamed c0.name hcand] at hd
      exact absurd hd (by decide)
    · intro _ ho
      rw [hdt] at ho
      exact absurd ho (by decide)
  rw [hid]
  exact ⟨hdt, hall⟩

lemma stdInv_addBasic (u : Table) (h : StdInv u) : StdInv (add_basic_columns u) := by
  intro c hc hcand
  rcases mem_addBasic u c hc with hm | hm
  · exact h c hm hcand
  · rcases hm.1 with hn | hn <;> rw [hn] at hcand <;> exact absurd hcand (by decide)

lemma dateInv_normalize (u : Table) : DateInv (normalize_types u) := by
  intro c hc hd
  obtain ⟨c0, hc0, rfl⟩ := List.mem_map.mp hc
  rw [normalizeColStep_name] at hd
  rw [normalizeColStep_date c0 hd]
  exact ⟨rfl, all_map_of DateOrMissing toDatetimeCell toDatetimeCell_dm c0.vals⟩

lemma dateInv_addBasic (u : Table) (h : DateInv u) : DateInv (add_basic_columns u) := by
  intro c hc hd
  rcases mem_addBasic u c hc with hm | hm
  · exact h c hm hd
  · rcases hm.1 with hn | hn <;> rw [hn] at hd <;> exact absurd hd (by decide)

lemma objInv_normalize (u : Table) : ObjInv (normalize_types u) := by
  intro c hc hdf ho
  obtain ⟨c0, hc0, rfl⟩ := List.mem_map.mp hc
  rw [normalizeColStep_name] at hdf
  by_cases ho0 : c0.dtype = Dtype.obj
  · rw [normalizeColStep_obj c0 hdf ho0] at ho ⊢
    by_cases hall : c0.vals.all numericParseable = true
    · rw [if_pos hall] at ho
      exact absurd ho (by simp)
    · rw [if_neg hall] at ho ⊢
      simpa using hall
  · have hid : normalizeColStep c0 = c0 := by
      apply normalizeColStep_id
      · intro hd
        rw [hdf] at hd
        exact absurd hd (by decide)
      · intro _ hoo
        exact absurd hoo ho0
    rw [hid] at ho
    exact absurd ho ho0

lemma objInv_addBasic (u : Table) (h : ObjInv u) : ObjInv (add_basic_columns u) := by
  intro c hc hdf ho
  rcases mem_addBasic u c hc with hm | hm
  · exact h c hm hdf ho
  · rw [hm.2] at ho
    exact absurd ho (by decide)

/-! #### PrecioInv / OcupInv after `add_basic_columns` -/

lemma upsert_all_named (u : Table) (c : Col) :
    ∀ c0 ∈ (upsertCol u c).cols, c0.name = c.name → c0 = c := by
  intro c0 hc0 hn
  unfold upsertCol at hc0
  by_cases hh : hasCol u c.name
  · rw [if_pos hh] at hc0
    obtain ⟨x, hx, rfl⟩ := List.mem_map.mp hc0
    by_cases hxn : x.name = c.name
    · rw [if_pos hxn]
    · rw [if_neg hxn] at hn ⊢
      exact absurd hn hxn
  · rw [if_neg hh] at hc0
    rcases List.mem_append.mp hc0 with hx | hx
    · exfalso
      apply hh
      unfold hasCol
      rw [List.any_eq_true]
      exact ⟨c0, hx, by simpa using hn⟩
    · simpa using hx

lemma upsert_preserve_named (u : Table) (c : Col) (n : String) (hn : n ≠ c.name) :
    ∀ c0 ∈ (upsertCol u c).cols, c0.name = n → c0 ∈ u.cols := by
  intro c0 hc0 hcn
  rcases upsert_mem u c c0 hc0 with rfl | h
  · exact absurd hcn.symm (by simpa using hn)
  · exact h

lemma hasCol_upsert_self (u : Table) (c : Col) : hasCol (upsertCol u c) c.name = true := by
  rw [← findCol_isSome, findCol_upsert_self]
  rfl

lemma hasCol_upsert_mono (u : Table) (c : Col) (n : String) (h : hasCol u n = true) :
    hasCol (upsertCol u c) n = true := by
  by_cases he : n = c.name
  · rw [he]
    exact hasCol_upsert_self u c
  · rw [← findCol_isSome, findCol_upsert_ne u c n he, findCol_isSome]
    exact h

lemma precioInv_addBasic (u : Table) : PrecioInv (add_basic_columns u) := by
  intro pc hpc
  have hAp : findCol (add_basic_columns u) "price" = findCol (addPrecio u) "price" := by
    unfold add_basic_columns addOcup
    cases ha : findCol (addPrecio u) "availability_365" with
    | none => rfl
    | some ac => exact findCol_upsert_ne _ _ _ (by simp)
  cases hp : findCol u "price" with
  | none =>
    have h1 : addPrecio u = u := by
      unfold addPrecio
      rw [hp]
    rw [hAp, h1, hp] at hpc
    cases hpc
  | some pc0 =>
    have h1 : addPrecio u
        = upsertCol u ⟨"precio_noche", Dtype.numD, pc0.vals.map coerceCell⟩ := by
      unfold addPrecio
      rw [hp]
    have hppres : findCol (addPrecio u) "price" = some pc0 := by
      rw [h1, findCol_upsert_ne _ _ _ (by simp)]
      exact hp
    have hpc0 : pc = pc0 := by
      rw [hAp, hppres] at hpc
      exact (Option.some.inj hpc).symm
    constructor
    · have h2 : hasCol (addPrecio u) "precio_noche" = true := by
        rw [h1]
        exact hasCol_upsert_self u _
      unfold add_basic_columns addOcup
      cases ha : findCol (addPrecio u) "availability_365" with
      | none => exact h2
      | some ac => exact hasCol_upsert_mono _ _ _ h2
    · intro c hc hcn
      have hc1 : c ∈ (addPrecio u).cols := by
        unfold add_basic_columns addOcup at hc
        cases ha : findCol (addPrecio u) "availability_365" with
        | none =>
          rw [ha] at hc
          exact hc
        | some ac =>
          rw [ha] at hc
          exact upsert_preserve_named _ _ _ (by simp) c hc hcn
      rw [h1] at hc1
      have heq := upsert_all_named u _ c hc1 (by simpa using hcn)
      rw [heq, hpc0]

lemma ocupInv_addBasic (u : Table) : OcupInv (add_basic_columns u) := by
  cases ha : findCol (addPrecio u) "availability_365" with
  | none =>
    have hA : add_basic_columns u = addPrecio u := by
      unfold add_basic_columns addOcup
      rw [ha]
    intro ac hac
    rw [hA, ha] at hac
    cases hac
  | some ac0 =>
    have hA : add_basic_columns u
        = upsertCol (addPrecio u)
            ⟨"ocupacion_estimada", Dtype.numD,
              ac0.vals.map (fun v => sub365Cell (coerceCell v))⟩ := by
      unfold add_basic_columns addOcup
      rw [ha]
    intro ac hac
    rw [hA] at hac
    have hac0 : ac = ac0 := by
      rw [findCol_upsert_ne _ _ _ (by simp), ha] at hac
      exact (Option.some.inj hac).symm
    constructor
    · rw [hA]
      exact hasCol_upsert_self _ _
    · intro c hc hcn
      rw [hA] at hc
      have heq := upsert_all_named _ _ c hc (by simpa using hcn)
      rw [heq, hac0]

/-! #### Invariants through `drop_duplicates` -/

/-- The per-column effect of `drop_duplicates`. -/
def dedupCol (t : Table) (c : Col) : Col :=
  ⟨c.name, c.dtype, (keptIdxs t).map (fun i => c.vals.getD i Value.missing)⟩

lemma dedup_cols (t : Table) :
    (drop_duplicates t).cols = t.cols.map (dedupCol t) := rfl

lemma all_getD_of_all (P : Value → Bool) (l : List Value) (hP : P Value.missing = true)
    (h : l.all P = true) (idxs : List ℕ) :
    (idxs.map (fun i => l.getD i Value.missing)).all P = true := by
  rw [List.all_eq_true]
  intro v hv
  obtain ⟨i, _, rfl⟩ := List.mem_map.mp hv
  by_cases hi : i < l.length
  · exact (List.all_eq_true.mp h) _ (getD_mem l i Value.missing hi)
  · rw [List.getD_eq_default _ _ (Nat.le_of_not_lt hi)]
    exact hP

lemma stdInv_dedup (u : Table) (h : StdInv u) : StdInv (drop_duplicates u) := by
  intro c hc hcand
  rw [dedup_cols] at hc
  obtain ⟨c0, hc0, rfl⟩ := List.mem_map.mp hc
  obtain ⟨hdt, hall⟩ := h c0 hc0 hcand
  exact ⟨hdt, all_getD_of_all NumOrMissing c0.vals rfl hall (keptIdxs u)⟩

lemma dateInv_dedup (u : Table) (h : DateInv u) : DateInv (drop_duplicates u) := by
  intro c hc hd
  rw [dedup_cols] at hc
  obtain ⟨c0, hc0, rfl⟩ := List.mem_map.mp hc
  obtain ⟨hdt, hall⟩ := h c0 hc0 hd
  exact ⟨hdt, all_getD_of_all DateOrMissing c0.vals rfl hall (keptIdxs u)⟩

lemma mem_keptIdxs (u : Table) (i : ℕ) :
    i ∈ keptIdxs u ↔ i < nrows u ∧ ∀ j < i, rowAt u j ≠ rowAt u i := by
  unfold keptIdxs
  rw [List.mem_filter, List.mem_range]
  constructor
  · rintro ⟨hi, hall⟩
    refine ⟨hi, fun j hj => ?_⟩
    have h2 := (List.all_eq_true.mp hall) j (List.mem_range.mpr hj)
    simpa using h2
  · rintro ⟨hi, hall⟩
    refine ⟨hi, ?_⟩
    rw [List.all_eq_true]
    intro j hj
    simpa using hall j (List.mem_range.mp hj)

lemma dedup_covers (u : Table) : ∀ i, i < nrows u →
    ∃ j, j ∈ keptIdxs u ∧ rowAt u j = rowAt u i := by
  intro i
  induction i using Nat.strong_induction_on with
  | _ i ih =>
    intro hi
    by_cases hk : i ∈ keptIdxs u
    · exact ⟨i, hk, rfl⟩
    · have hno : ¬(i < nrows u ∧ ∀ j < i, rowAt u j ≠ rowAt u i) :=
        fun hcon => hk ((mem_keptIdxs u i).mpr hcon)
      push_neg at hno
      obtain ⟨j, hj, heq⟩ := hno hi
      obtain ⟨j2, hj2, heq2⟩ := ih j hj (lt_trans hj hi)
      exact ⟨j2, hj2, heq2.trans heq⟩

lemma objInv_dedup (u : Table) (hO : ObjInv u) (hlen : AllColsLen u (nrows u)) :
    ObjInv (drop_duplicates u) := by
  intro c hc hdf ho
  rw [dedup_cols] at hc
  obtain ⟨c0, hc0, rfl⟩ := List.mem_map.mp hc
  have hfail := hO c0 hc0 hdf ho
  have hex : ¬(c0.vals.all numericParseable = true) := by
    rw [hfail]
    simp
  rw [List.all_eq_true] at hex
  push_neg at hex
  obtain ⟨v, hv, hnp⟩ := hex
  obtain ⟨i, hi, hvi⟩ := List.mem_iff_getElem.mp hv
  have hilen : i < nrows u := by
    rw [← hlen c0 hc0]
    exact hi
  obtain ⟨j, hjk, hjr⟩ := dedup_covers u i hilen
  have hcell : c0.vals.getD j Value.missing = c0.vals.getD i Value.missing := by
    unfold rowAt at hjr
    exact List.map_eq_map_iff.mp hjr c0 hc0
  rw [List.getD_eq_getElem _ _ hi, hvi] at hcell
  apply Bool.eq_false_iff.mpr
  intro hall
  apply hnp
  have hmem : v ∈ (dedupCol u c0).vals := by
    rw [← hcell]
    exact List.mem_map.mpr ⟨j, hjk, rfl⟩
  exact (List.all_eq_true.mp hall) v hmem

lemma findCol_dedup (u : Table) (n : String) :
    findCol (drop_duplicates u) n = (findCol u n).map (dedupCol u) :=
  find?_name_map u.cols (dedupCol u) (fun _ => rfl) n

lemma hasCol_dedup (u : Table) (n : String) :
    hasCol (drop_duplicates u) n = hasCol u n := by
  rw [← findCol_isSome, ← findCol_isSome, findCol_dedup]
  cases findCol u n <;> rfl

lemma dedupCol_of_map (u : Table) (f : Value → Value)
    (hf : f Value.missing = Value.missing) (nm : String) (dt : Dtype) (l : List Value) :
    dedupCol u ⟨nm, dt, l.map f⟩
      = ⟨nm, dt, (dedupCol u ⟨nm, dt, l⟩).vals.map f⟩ := by
  unfold dedupCol
  simp only [Col.mk.injEq, true_and]
  rw [List.map_map]
  apply List.map_congr_left
  intro i _
  exact getD_map_mpres f hf l i

lemma precioInv_dedup (u : Table) (hP : PrecioInv u) : PrecioInv (drop_duplicates u) := by
  intro pc hpc
  rw [findCol_dedup] at hpc
  cases hp : findCol u "price" with
  | none =>
    rw [hp] at hpc
    cases hpc
  | some pc0 =>
    rw [hp] at hpc
    have hpc0 : pc = dedupCol u pc0 := (Option.some.inj hpc).symm
    obtain ⟨hhas, hall⟩ := hP pc0 hp
    constructor
    · rw [hasCol_dedup]
      exact hhas
    · intro c hc hcn
      rw [dedup_cols] at hc
      obtain ⟨c0, hc0, rfl⟩ := List.mem_map.mp hc
      have hc0n : c0.name = "precio_noche" := hcn
      have hc0eq := hall c0 hc0 hc0n
      rw [hc0eq, hpc0]
      exact dedupCol_of_map u coerceCell rfl "precio_noche" Dtype.numD pc0.vals

lemma ocupInv_dedup (u : Table) (hF : OcupInv u) : OcupInv (drop_duplicates u) := by
  intro ac hac
  rw [findCol_dedup] at hac
  cases ha : findCol u "availability_365" with
  | none =>
    rw [ha] at hac
    cases hac
  | some ac0 =>
    rw [ha] at hac
    have hac0 : ac = dedupCol u ac0 := (Option.some.inj hac).symm
    obtain ⟨hhas, hall⟩ := hF ac0 ha
    constructor
    · rw [hasCol_dedup]
      exact hhas
    · intro c hc hcn
      rw [dedup_cols] at hc
      obtain ⟨c0, hc0, rfl⟩ := List.mem_map.mp hc
      have hc0n : c0.name = "ocupacion_estimada" := hcn
      have hc0eq := hall c0 hc0 hc0n
      rw [hc0eq, hac0]
      exact dedupCol_of_map u (fun v => sub365Cell (coerceCell v)) rfl
        "ocupacion_estimada" Dtype.numD ac0.vals

lemma dedup_allLen (u : Table) : AllColsLen (drop_duplicates u) (keptIdxs u).length := by
  intro c hc
  rw [dedup_cols] at hc
  obtain ⟨c0, _, rfl⟩ := List.mem_map.mp hc
  simp [dedupCol]

lemma dedup_nrows (u : Table) (h : u.cols ≠ []) :
    nrows (drop_duplicates u) = (keptIdxs u).length := by
  obtain ⟨cols⟩ := u
  cases cols with
  | nil => exact absurd rfl h
  | cons c rest =>
    show ((keptIdxs ⟨c :: rest⟩).map
        (fun i => c.vals.getD i Value.missing)).length = _
    rw [List.length_map]

lemma dedup_rowAt (u : Table) (k : ℕ) (hk : k < (keptIdxs u).length) :
    rowAt (drop_duplicates u) k = rowAt u ((keptIdxs u).getD k 0) := by
  unfold rowAt
  rw [dedup_cols, List.map_map]
  apply List.map_congr_left
  intro c _
  show ((keptIdxs u).map (fun i => c.vals.getD i Value.missing)).getD k Value.missing = _
  rw [getD_map_lt _ _ k 0 Value.missing hk]

lemma keptIdxs_pairwise (u : Table) : (keptIdxs u).Pairwise (· < ·) := by
  unfold keptIdxs
  exact (List.pairwise_lt_range _).filter _

lemma dedup_nodupRows (u : Table) : NodupRows (drop_duplicates u) := by
  intro k hk j hjk
  have hkl : k < (keptIdxs u).length := by
    by_cases hcols : u.cols = []
    · exfalso
      have h0 : nrows (drop_duplicates u) = 0 := by
        unfold drop_duplicates
        rw [hcols]
        rfl
      rw [h0] at hk
      exact Nat.not_lt_zero k hk
    · rwa [dedup_nrows u hcols] at hk
  have hjl : j < (keptIdxs u).length := lt_trans hjk hkl
  rw [dedup_rowAt u k hkl, dedup_rowAt u j hjl]
  have hlt : (keptIdxs u).getD j 0 < (keptIdxs u).getD k 0 := by
    have hp := keptIdxs_pairwise u
    rw [List.pairwise_iff_getElem] at hp
    have h2 := hp j k hjl hkl hjk
    rwa [List.getD_eq_getElem _ _ hjl, List.getD_eq_getElem _ _ hkl]
  have hmem : (keptIdxs u).getD k 0 ∈ keptIdxs u := getD_mem _ _ _ hkl
  exact ((mem_keptIdxs u _).mp hmem).2 _ hlt

/-- A small rectangular table used to instantiate the idempotence theorem. -/
def T3w : Table :=
  ⟨[⟨"id", Dtype.numD, [Value.num 1, Value.num 1, Value.num 2]⟩,
    ⟨"nota", Dtype.obj, [Value.str "a", Value.str "a", Value.str "b c"]⟩]⟩

/-- Claim C3: for every (rectangular) table t, clean_dataset is idempotent:
clean_dataset (clean_dataset t) = clean_dataset t — the standardize, normalize
and enrichment stages are the identity on the already-cleaned table and the
second deduplication pass is a no-op. -/
theorem claim_C3 (t : Table) (hwf : WFb t = true) :
    clean_dataset (clean_dataset t) = clean_dataset t := by
  have hlen0 : AllColsLen t (nrows t) := wfb_allLen t hwf
  have hlenA : AllColsLen (add_basic_columns (normalize_types (standardize_prices t)))
      (nrows t) :=
    addBasic_allLen _ _ (normalize_allLen _ _ (standardize_allLen t _ hlen0))
  have hlenA2 := allLen_nrows _ _ hlenA
  have hstdA : StdInv (add_basic_columns (normalize_types (standardize_prices t))) :=
    stdInv_addBasic _ (stdInv_normalize _ (stdInv_standardize t))
  have hdateA : DateInv (add_basic_columns (normalize_types (standardize_prices t))) :=
    dateInv_addBasic _ (dateInv_normalize _)
  have hobjA : ObjInv (add_basic_columns (normalize_types (standardize_prices t))) :=
    objInv_addBasic _ (objInv_normalize _)
  have hstdU : StdInv (clean_dataset t) := stdInv_dedup _ hstdA
  have hdateU : DateInv (clean_dataset t) := dateInv_dedup _ hdateA
  have hobjU : ObjInv (clean_dataset t) := objInv_dedup _ hobjA hlenA2
  have hprecU : PrecioInv (clean_dataset t) := precioInv_dedup _ (precioInv_addBasic _)
  have hocupU : OcupInv (clean_dataset t) := ocupInv_dedup _ (ocupInv_addBasic _)
  have hlenU : AllColsLen (clean_dataset t) (nrows (clean_dataset t)) :=
    allLen_nrows _ _ (dedup_allLen _)
  have hndU : NodupRows (clean_dataset t) := dedup_nodupRows _
  show drop_duplicates (add_basic_columns (normalize_types
      (standardize_prices (clean_dataset t)))) = clean_dataset t
  rw [stage1_id _ hstdU, stage2_id _ hdateU hobjU, stage3_id _ hprecU hocupU,
    stage4_id _ hlenU hndU]

/-- Witness: the hypothesis (rectangularity) holds of the concrete table T3w,
and cleaning it twice equals cleaning it once. -/
theorem claim_C3_witness :
    WFb T3w = true ∧ clean_dataset (clean_dataset T3w) = clean_dataset T3w :=
  ⟨by decide, claim_C3 T3w (by decide)⟩
